import Mathlib

/-!
# go-telebot/pkg : `monitor`

A shallow embedding of the `monitor` package (event normalisation in
`middleware.go`, the batch worker and `insertBatch` in `monitor.go`, the bulk
statements of `sql.go`) together with the properties proved about it.

Conventions of the embedding.
* A Go pointer that may be nil is an `Option`; `x != nil` is `x.isSome`.
* `error` is `Option String` (`none` is `nil`).
* `time.Now()` is a parameter `now`.
* `int`, `int64` are `Int`; `uint(x)` is reduction modulo `2^64`.
* The accessors of `tele.Context` (an interface of the telebot library) are the
  fields of a record, each free to take any value.
-/

namespace tele

/-- The library type `tele.User`; only `ID` is read. -/
structure User where
  ID : Int
deriving DecidableEq, Repr

/-- The library type `tele.Chat`; only `ID` is read. -/
structure Chat where
  ID : Int
deriving DecidableEq, Repr

/-- Any attachment object of a message (`*Animation`, `*Audio`, ...); only its
presence is inspected. -/
structure Attachment where
  FileID : String
deriving DecidableEq, Repr

/-- The library type `tele.Message`. `IsService`, `IsForwarded` and `IsReply`
are methods of the library; their results are recorded as fields. -/
structure Message where
  ID : Int
  IsService : Bool := false
  IsForwarded : Bool := false
  IsReply : Bool := false
  Animation : Option Attachment := none
  Audio : Option Attachment := none
  Document : Option Attachment := none
  Photo : Option Attachment := none
  Sticker : Option Attachment := none
  Video : Option Attachment := none
  VideoNote : Option Attachment := none
  Voice : Option Attachment := none
  Contact : Option Attachment := none
  Dice : Option Attachment := none
  Poll : Option Attachment := none
  Venue : Option Attachment := none
  Location : Option Attachment := none
deriving DecidableEq, Repr

/-- The library type `tele.Callback`; `IsInline` is the result of the library
method `IsInline()`. -/
structure Callback where
  Unique : String
  Data : String := ""
  MessageID : String := ""
  IsInline : Bool := false
deriving DecidableEq, Repr

/-- The library type `tele.InlineResult`. -/
structure InlineResult where
  MessageID : String
  ResultID : String
deriving DecidableEq, Repr

/-- The library types `tele.Query`, `tele.ShippingQuery`, `tele.PreCheckoutQuery`
and `tele.ChatMemberUpdate`; only their presence is inspected. -/
structure Query where
  ID : String
deriving DecidableEq, Repr

/-- The library type `tele.Update`, as far as it is read. -/
structure Update where
  ID : Int
  EditedMessage : Option Message := none
  EditedChannelPost : Option Message := none
deriving DecidableEq, Repr

/-- The interface `tele.Context`: one field per accessor used by the package. -/
structure Context where
  Callback : Option tele.Callback := none
  Message : Option tele.Message := none
  Query : Option tele.Query := none
  InlineResult : Option tele.InlineResult := none
  ShippingQuery : Option tele.Query := none
  PreCheckoutQuery : Option tele.Query := none
  ChatMember : Option tele.Query := none
  Sender : Option tele.User := none
  Chat : Option tele.Chat := none
  Text : String := ""
  Data : String := ""
  Update : tele.Update
deriving DecidableEq, Repr

end tele

namespace monitor

/-- An instant (`time.Time`); the zero value is `⟨0⟩`. -/
structure Time where
  unix : Int := 0
deriving DecidableEq, Repr

/-- The record `Update` of `monitor.go`. -/
structure Update where
  Date : Time := {}
  Time : Time := {}
  ID : Nat := 0
  /-- The field `Type` of the source (`Type` is reserved in Lean). -/
  Typ : String := ""
  UserID : Int := 0
  ChatID : Int := 0
  MessageID : String := ""
  Text : String := ""
  Media : String := ""
  IsInline : Bool := false
  IsForwarded : Bool := false
  IsReply : Bool := false
  WasEdited : Bool := false
  ResultID : String := ""
deriving DecidableEq, Repr

/-- The record `Record` of `monitor.go`. -/
structure Record where
  Date : Time := {}
  Time : Time := {}
  UpdateID : Nat := 0
  Level : String := ""
  Message : String := ""
  Payload : String := ""
deriving DecidableEq, Repr

/-- The conversion `uint(x)` of an `int` on a 64-bit platform. -/
def toUint (x : Int) : Nat := (x % 2 ^ 64).toNat

/-- The function `strconv.Itoa`: decimal rendering of an `int`. -/
def Itoa (n : Int) : String := toString n

/-- The function `updateType` of `middleware.go`. -/
def updateType (c : tele.Context) : String :=
  if c.Callback.isSome then "callback" -- must be first
  else if c.Message.isSome then "message"
  else if c.Query.isSome then "inline_query"
  else if c.InlineResult.isSome then "inline_result"
  else if c.ShippingQuery.isSome then "shipping_query"
  else if c.PreCheckoutQuery.isSome then "pre_checkout_query"
  else if c.ChatMember.isSome then "chat_member"
  else ""

/-- The function `updateMedia` of `middleware.go`. -/
def updateMedia (msg : tele.Message) : String :=
  if msg.Animation.isSome then "animation"
  else if msg.Audio.isSome then "audio"
  else if msg.Document.isSome then "document"
  else if msg.Photo.isSome then "photo"
  else if msg.Sticker.isSome then "sticker"
  else if msg.Video.isSome then "video"
  else if msg.VideoNote.isSome then "video_note"
  else if msg.Voice.isSome then "voice"
  else if msg.Contact.isSome then "contact"
  else if msg.Dice.isSome then "dice"
  else if msg.Poll.isSome then "poll"
  else if msg.Venue.isSome then "venue"
  else if msg.Location.isSome then "location"
  else ""

/-- The part of `newUpdate` after the three rejections: the construction of the
record from the type tag, the sender and the attached message. -/
def newUpdate.build (now : Time) (c : tele.Context) (utype : String)
    (sender : tele.User) (msg : Option tele.Message) : Update :=
  let text := c.Text
  let text := if text = "" then c.Data else text
  let update : Update :=
    { Time := now, ID := toUint c.Update.ID, Typ := utype, UserID := sender.ID, Text := text }
  let update := match c.Chat with
    | some chat => { update with ChatID := chat.ID }
    | none => update
  let update := match msg with
    | some msg =>
      { update with
        MessageID := Itoa msg.ID
        Media := updateMedia msg
        IsForwarded := msg.IsForwarded
        IsReply := msg.IsReply }
    | none => update
  let update :=
    if c.Update.EditedMessage.isSome || c.Update.EditedChannelPost.isSome then
      { update with WasEdited := true }
    else update
  let update := match c.Callback with
    | some clb =>
      let update := { update with Text := clb.Unique }
      let update :=
        if clb.Data ≠ "" then { update with Text := update.Text ++ ("|" ++ clb.Data) }
        else update
      let update := { update with IsInline := clb.IsInline }
      if update.IsInline then { update with MessageID := clb.MessageID } else update
    | none => update
  let update := match c.InlineResult with
    | some ir =>
      { update with IsInline := true, MessageID := ir.MessageID, ResultID := ir.ResultID }
    | none => update
  update

/-- The function `newUpdate` of `middleware.go`; the second component is `ok`. -/
def newUpdate (now : Time) (c : tele.Context) : Update × Bool :=
  let utype := updateType c
  if utype = "" then ({}, false)
  else
    match c.Sender with
    | none => ({}, false)
    | some sender =>
      let msg := c.Message
      if msg.isSome && (msg.any fun m => m.IsService) then ({}, false)
      else (newUpdate.build now c utype sender msg, true)

/-- A value of dynamic type carried by `chan interface{}` and `[]interface{}`:
an `Update`, a `Record`, or a value of any other type. -/
inductive Value where
  | update (u : Update)
  | record (r : Record)
  | other (descr : String)
deriving DecidableEq, Repr

/-- A statement argument (`interface{}`) as built in `sql.go`; `date t` is
`clickhouse.Date(t)`, the calendar date of the instant `t`. -/
inductive Arg where
  | date (t : Time)
  | time (t : Time)
  | uint (n : Nat)
  | int64 (n : Int)
  | string (s : String)
  | bool (b : Bool)
deriving DecidableEq, Repr

/-- One call of `db.Exec(query, args...)`. -/
structure Statement where
  query : String
  args : List Arg
deriving DecidableEq, Repr

/-- The sink `*sql.DB`: the statements executed so far, and the answer of the
store to a statement given that history (`none`: accepted, `some e`: rejected
with error `e`). -/
structure DB where
  history : List Statement := []
  respond : List Statement → Statement → Option String

/-- The method `db.Exec`. -/
def DB.Exec (db : DB) (query : String) (args : List Arg) : DB × Option String :=
  let st : Statement := { query := query, args := args }
  ({ db with history := db.history ++ [st] }, db.respond db.history st)

/-- The constant `queryInsertIntoUpdates` of `sql.go`. -/
def queryInsertIntoUpdates : String :=
  "\n\tINSERT INTO updates (\n\t\tdate,\n\t\ttime,\n\t\tid,\n\t\ttype,\n\t\tuser_id,\n\t\tchat_id,\n\t\tmessage_id,\n\t\ttext,\n\t\tmedia,\n\t\tis_inline,\n\t\tis_forwarded,\n\t\tis_reply,\n\t\twas_edited,\n\t\tresult_id\n\t) VALUES "

/-- The constant `queryInsertIntoLog` of `sql.go`. -/
def queryInsertIntoLog : String :=
  "\n\tINSERT INTO log (\n\t\tdate,\n\t\ttime,\n\t\tupdate_id,\n\t\tlevel,\n\t\tmessage,\n\t\tpayload\n\t) VALUES "

/-- The local constant `values` of `insertUpdates`. -/
def insertUpdates.values : String := "(?, ?, ?, ?, ?, ?, ?, ?, ?, ?, ?, ?, ?, ?)"

/-- The arguments appended for one update by the loop of `insertUpdates`. -/
def insertUpdates.row (update : Update) : List Arg :=
  [ Arg.date update.Time,
    Arg.time update.Time,
    Arg.uint update.ID,
    Arg.string update.Typ,
    Arg.int64 update.UserID,
    Arg.int64 update.ChatID,
    Arg.string update.MessageID,
    Arg.string update.Text,
    Arg.string update.Media,
    Arg.bool update.IsInline,
    Arg.bool update.IsForwarded,
    Arg.bool update.IsReply,
    Arg.bool update.WasEdited,
    Arg.string update.ResultID ]

/-- The loop of `insertUpdates`: the final values of `stmt` and `args`. -/
def insertUpdates.loop (updates : List Update) : List String × List Arg :=
  updates.foldl
    (fun acc update => (acc.1 ++ [insertUpdates.values], acc.2 ++ insertUpdates.row update))
    ([], [])

/-- The statement built by `insertUpdates`: `query` and `args` as passed to
`m.db.Exec`. -/
def insertUpdates.statement (updates : List Update) : Statement :=
  let acc := insertUpdates.loop updates
  { query := queryInsertIntoUpdates ++ String.intercalate "," acc.1, args := acc.2 }

/-- The method `insertUpdates` of `sql.go`. -/
def insertUpdates (db : DB) (updates : List Update) : DB × Option String :=
  let st := insertUpdates.statement updates
  db.Exec st.query st.args

/-- The local constant `values` of `insertRecords`. -/
def insertRecords.values : String := "(?, ?, ?, ?, ?, ?)"

/-- The arguments appended for one record by the loop of `insertRecords`. -/
def insertRecords.row (record : Record) : List Arg :=
  [ Arg.date record.Time,
    Arg.time record.Time,
    Arg.uint record.UpdateID,
    Arg.string record.Level,
    Arg.string record.Message,
    Arg.string record.Payload ]

/-- The loop of `insertRecords`: the final values of `stmt` and `args`. -/
def insertRecords.loop (records : List Record) : List String × List Arg :=
  records.foldl
    (fun acc record => (acc.1 ++ [insertRecords.values], acc.2 ++ insertRecords.row record))
    ([], [])

/-- The statement built by `insertRecords`: `query` and `args` as passed to
`m.db.Exec`. -/
def insertRecords.statement (records : List Record) : Statement :=
  let acc := insertRecords.loop records
  { query := queryInsertIntoLog ++ String.intercalate "," acc.1, args := acc.2 }

/-- The method `insertRecords` of `sql.go`. -/
def insertRecords (db : DB) (records : List Record) : DB × Option String :=
  let st := insertRecords.statement records
  db.Exec st.query st.args

/-- The type switch in the loop of `insertBatch`, for one value. -/
def insertBatch.visit (acc : List Update × List Record) (v : Value) :
    List Update × List Record :=
  match v with
  | Value.update vv => (acc.1 ++ [vv], acc.2)
  | Value.record vv => (acc.1, acc.2 ++ [vv])
  | Value.other _ => acc

/-- The loop of `insertBatch`: the final values of `updates` and `records`. -/
def insertBatch.loop (values : List Value) : List Update × List Record :=
  values.foldl insertBatch.visit ([], [])

/-- The method `insertBatch` of `monitor.go`. -/
def insertBatch (db : DB) (values : List Value) : DB × Option String :=
  if values.length = 0 then (db, none)
  else
    let acc := insertBatch.loop values
    let r1 := if acc.1.length > 0 then insertUpdates db acc.1 else (db, none)
    if r1.2.isSome then r1
    else
      let r2 := if acc.2.length > 0 then insertRecords r1.1 acc.2 else (r1.1, none)
      if r2.2.isSome then r2
      else (r2.1, none)

/-- A buffered channel `make(chan α, cap)` with `1 ≤ cap`: its capacity and the
values waiting in it, oldest first. -/
structure Chan (α : Type) where
  cap : Nat
  queue : List α := []

/-- A send `ch <- v`: `none` when the channel is full, in which case the sender
stays suspended. -/
def Chan.send {α : Type} (ch : Chan α) (v : α) : Option (Chan α) :=
  if ch.queue.length < ch.cap then some { ch with queue := ch.queue ++ [v] } else none

/-- A receive `<-ch`: `none` when nothing is waiting. -/
def Chan.recv {α : Type} (ch : Chan α) : Option (α × Chan α) :=
  match ch.queue with
  | [] => none
  | v :: rest => some (v, { ch with queue := rest })

/-- The record `Monitor` of `monitor.go`. `wg` is nil or the counter of the wait
group; `flush` and `halt` are nil or the number of senders suspended on the
unbuffered channel; `logger` is nil or the lines written to it. The ticker is
left to the environment. -/
structure Monitor where
  wg : Option Int := none
  flush : Option Nat := none
  halt : Option Nat := none
  db : DB
  bus : Chan Value
  logger : Option (List String) := none

/-- A `tele.HandlerFunc` run against the monitor: the state it leaves and the
error it returns, or `none` when it does not return. -/
abbrev HandlerFunc := tele.Context → Monitor → Option (Monitor × Option String)

/-- The handler returned by the method `Middleware` of `middleware.go`, applied
to `next`; `now` is the instant read by `newUpdate`. -/
def Middleware (now : Time) (next : HandlerFunc) : HandlerFunc := fun c m =>
  let r := newUpdate now c
  if r.2 then
    match m.bus.send (Value.update r.1) with
    | some bus => next c { m with bus := bus }
    | none => none
  else next c m

/-- The goroutine `startBatchWorker`: the monitor it shares, its local `buffer`
and the lines it has written with `log.Println`. -/
structure Worker where
  m : Monitor
  buffer : List Value := []
  stdlog : List String := []

/-- What makes the worker call its closure `insertBatch`: the buffer reached
`cap(m.bus)`, the ticker fired, a flush request was received, or the deferred
call ran. -/
inductive Trigger where
  | capacity
  | timer
  | explicit
  | deferred
deriving DecidableEq, Repr

/-- An observable action of the worker: a value received from `m.bus`, or a
call `m.insertBatch(batch)`. -/
inductive Label where
  | received (v : Value)
  | flushed (t : Trigger) (batch : List Value)
deriving DecidableEq, Repr

/-- The closure `insertBatch` of `startBatchWorker`. -/
def startBatchWorker.insertBatch (w : Worker) : Worker :=
  let r := monitor.insertBatch w.m.db w.buffer
  let stdlog :=
    match r.2 with
    | some err => w.stdlog ++ ["monitor: " ++ err]
    | none => w.stdlog
  { m := { w.m with db := r.1 }, buffer := [], stdlog := stdlog }

/-- The four cases of the `select` of `startBatchWorker`. -/
inductive Case where
  | bus
  | ticker
  | flush
  | halt
deriving DecidableEq, Repr

/-- The result of one pass through the `select` of `startBatchWorker`, with the
actions performed during it. -/
inductive Outcome where
  /-- The case ran and the loop goes on. -/
  | next (w : Worker) (trace : List Label)
  /-- The case cannot be taken in this state. -/
  | notReady
  /-- The goroutine panicked (nil wait group or negative counter); the deferred
  call has run. -/
  | fault (w : Worker) (trace : List Label)
  /-- The goroutine is suspended for ever. -/
  | stuck (w : Worker) (trace : List Label)

/-- One pass through the loop of `startBatchWorker`, taking the case `c`. -/
def startBatchWorker.select (w : Worker) (c : Case) : Outcome :=
  match c with
  | Case.bus =>
    match w.m.bus.recv with
    | none => Outcome.notReady
    | some (v, bus) =>
      let w : Worker := { w with m := { w.m with bus := bus }, buffer := w.buffer ++ [v] }
      if w.buffer.length ≥ w.m.bus.cap then
        Outcome.next (startBatchWorker.insertBatch w)
          [Label.received v, Label.flushed Trigger.capacity w.buffer]
      else Outcome.next w [Label.received v]
  | Case.ticker =>
    Outcome.next (startBatchWorker.insertBatch w) [Label.flushed Trigger.timer w.buffer]
  | Case.flush =>
    match w.m.flush with
    | some (k + 1) =>
      let w1 : Worker := { w with m := { w.m with flush := some k } }
      let w2 := startBatchWorker.insertBatch w1
      match w2.m.wg with
      | some n =>
        if n - 1 < 0 then
          Outcome.fault (startBatchWorker.insertBatch w2)
            [Label.flushed Trigger.explicit w.buffer, Label.flushed Trigger.deferred w2.buffer]
        else
          Outcome.next { w2 with m := { w2.m with wg := some (n - 1) } }
            [Label.flushed Trigger.explicit w.buffer]
      | none =>
        Outcome.fault (startBatchWorker.insertBatch w2)
          [Label.flushed Trigger.explicit w.buffer, Label.flushed Trigger.deferred w2.buffer]
    | _ => Outcome.notReady
  | Case.halt =>
    match w.m.halt with
    | some (k + 1) =>
      let w1 : Worker := { w with m := { w.m with halt := some k } }
      -- m.Flush()
      match w1.m.wg with
      | none =>
        Outcome.fault (startBatchWorker.insertBatch w1)
          [Label.flushed Trigger.deferred w1.buffer]
      | some n =>
        -- the send on m.flush has no receiver but this goroutine
        Outcome.stuck
          { w1 with m := { w1.m with wg := some (n + 1), flush := w1.m.flush.map (· + 1) } } []
    | _ => Outcome.notReady

/-- A step of the system around the worker: the worker takes a case of its
`select`, a producer completes a send `m.bus <- v`, or a caller of `Flush`
executes `m.wg.Add(1)` and suspends in its send on `m.flush`. -/
inductive Event where
  | select (c : Case)
  | send (v : Value)
  | flushCall
deriving DecidableEq, Repr

/-- One event: the state it leads to and the worker actions it produces, or
`none` when it is not enabled or the worker does not come back to its loop. -/
def startBatchWorker.step (w : Worker) (e : Event) : Option (Worker × List Label) :=
  match e with
  | Event.select c =>
    match startBatchWorker.select w c with
    | Outcome.next w1 trace => some (w1, trace)
    | _ => none
  | Event.send v =>
    match w.m.bus.send v with
    | some bus => some ({ w with m := { w.m with bus := bus } }, [])
    | none => none
  | Event.flushCall =>
    match w.m.wg with
    | some n =>
      some ({ w with m := { w.m with wg := some (n + 1), flush := w.m.flush.map (· + 1) } }, [])
    | none => none

/-- A sequence of events from `w`: the final state and the actions of the
worker, in order. -/
def startBatchWorker.run (w : Worker) : List Event → Option (Worker × List Label)
  | [] => some (w, [])
  | e :: es =>
    match startBatchWorker.step w e with
    | none => none
    | some (w1, t1) =>
      match startBatchWorker.run w1 es with
      | none => none
      | some (w2, t2) => some (w2, t1 ++ t2)

/-- The constant `queryCreateTableUpdates` of `sql.go`. -/
def queryCreateTableUpdates : String :=
  "\n\tCREATE TABLE IF NOT EXISTS updates (\n\t\tdate         Date,\n\t\ttime         DateTime,\n\t\tid           UInt32,\n\t\ttype         String,\n\t\tuser_id      Int64,\n\t\tchat_id\t     Int64,\n\t\tmessage_id   String,\n\t\ttext         String,\n\t\tmedia        String,\n\t\tis_inline    UInt8,\n\t\tis_forwarded UInt8,\n\t\tis_reply     UInt8,\n\t\twas_edited   UInt8,\n\t\tresult_id    String\n\t)\n\tENGINE = MergeTree()\n\tORDER BY (date, id, type, user_id)\n\tPARTITION BY toYYYYMM(date)"

/-- The constant `queryCreateTableLogs` of `sql.go`. -/
def queryCreateTableLogs : String :=
  "\n\tCREATE TABLE IF NOT EXISTS log (\n\t\tdate         Date,\n\t\ttime         DateTime,\n\t\tupdate_id    UInt32,\n\t\tlevel        String,\n\t\tmessage      String,\n\t\tpayload      String\n\t)\n\tENGINE = MergeTree()\n\tORDER BY (date, update_id, level)\n\tPARTITION BY toYYYYMM(date)"

/-- The functions of `encoding/json` used by `log`, for payloads of type `M`:
`Marshal` gives `none` when it returns an error (its data is then nil), and
`Indent` gives the indented text. -/
structure JSON (M : Type) where
  Marshal : M → Option String
  Indent : String → String

/-- The line written by `Println` for the operands `v`. -/
def Println (v : List String) : String := String.intercalate " " v

/-- The method `log` of `logger.go`; `c` is `none` for a nil context, and the
result is `none` when the send on the bus cannot complete. -/
def log {M : Type} (json : JSON M) (now : Time) (m : Monitor) (c : Option tele.Context)
    (level msg : String) (payload : List M) : Option Monitor :=
  let record : Record := { Time := now, Level := level, Message := msg }
  let record :=
    match c with
    | some c => { record with UpdateID := toUint c.Update.ID }
    | none => record
  let data : Option String :=
    match payload with
    | p :: _ => json.Marshal p
    | [] => none
  let record :=
    match payload with
    | _ :: _ => { record with Payload := data.getD "" }
    | [] => record
  let m :=
    match m.logger with
    | some lines =>
      let v := [level.toUpper, msg]
      let v :=
        match data with
        | some d => v ++ [json.Indent d]
        | none => v
      { m with logger := some (lines ++ [Println v]) }
    | none => m
  match m.bus.send (Value.record record) with
  | some bus => some { m with bus := bus }
  | none => none

/-- The method `Info` of `logger.go`. -/
def Info {M : Type} (json : JSON M) (now : Time) (m : Monitor) (c : Option tele.Context)
    (msg : String) (payload : List M) : Option Monitor :=
  log json now m c "info" msg payload

/-- The method `Debug` of `logger.go`. -/
def Debug {M : Type} (json : JSON M) (now : Time) (m : Monitor) (c : Option tele.Context)
    (msg : String) (payload : List M) : Option Monitor :=
  log json now m c "debug" msg payload

/-- The method `Warn` of `logger.go`. -/
def Warn {M : Type} (json : JSON M) (now : Time) (m : Monitor) (c : Option tele.Context)
    (msg : String) (payload : List M) : Option Monitor :=
  log json now m c "warn" msg payload

/-- The method `Error` of `logger.go`. -/
def Error {M : Type} (json : JSON M) (now : Time) (m : Monitor) (c : Option tele.Context)
    (msg : String) (payload : List M) : Option Monitor :=
  log json now m c "error" msg payload

/-- The record `Config` of `monitor.go`; `TickPeriod` is in nanoseconds. -/
structure Config where
  URL : String := ""
  BufferSize : Int := 0
  TickPeriod : Int := 0
  Logger : Option (List String) := none

/-- The store behind `database/sql`: `Open` is `sql.Open("clickhouse", url)` and
`Ping` is `db.Ping()`. -/
structure Driver where
  Open : String → Except String DB
  Ping : DB → Option String

/-- The method `createTables` of `monitor.go`. -/
def createTables (db : DB) : DB × Option String :=
  let r := db.Exec queryCreateTableUpdates []
  if r.2.isSome then r
  else r.1.Exec queryCreateTableLogs []

/-- The largest size `make(chan interface{}, size)` accepts on a 64-bit
platform: 16 bytes per element, within `maxAlloc - hchanSize = 2^48 - 96`
bytes. -/
def maxChanSize : Int := (2 ^ 48 - 96) / 16

/-- What a call of `New` ends with: the monitor together with the worker it has
started, an error, or a panic (`make` with a negative or too large size, `NewTicker`
with a negative period). -/
inductive NewResult where
  | ok (w : Worker)
  | error (err : String)
  | panic (msg : String)

/-- The function `New` of `monitor.go`. -/
def New (driver : Driver) (config : Config) : NewResult :=
  match driver.Open config.URL with
  | Except.error err => NewResult.error ("monitor: " ++ err)
  | Except.ok db =>
    match driver.Ping db with
    | some err => NewResult.error ("monitor: " ++ err)
    | none =>
      let config := if config.BufferSize = 0 then { config with BufferSize := 1000 } else config
      let config :=
        if config.TickPeriod = 0 then { config with TickPeriod := 5 * 1000000000 } else config
      if config.BufferSize < 0 ∨ maxChanSize < config.BufferSize then
        NewResult.panic "makechan: size out of range"
      else if config.TickPeriod < 0 then NewResult.panic "non-positive interval for NewTicker"
      else
        let m : Monitor :=
          { db := db, bus := { cap := config.BufferSize.toNat }, logger := config.Logger }
        let r := createTables m.db
        match r.2 with
        | some err => NewResult.error ("monitor: " ++ err)
        | none => NewResult.ok { m := { m with db := r.1 } }

/-- How far a call of `Flush` or `Close` gets before it first waits. -/
inductive Call where
  /-- A nil pointer was dereferenced. -/
  | panic (msg : String)
  /-- The caller is suspended in a send that the worker can receive. -/
  | waiting (m : Monitor)
  /-- The caller is suspended for ever in a send on a nil channel. -/
  | blocked (m : Monitor)

/-- The method `Flush` of `monitor.go`, up to its send on `m.flush`. -/
def Flush (m : Monitor) : Call :=
  match m.wg with
  | none => Call.panic "invalid memory address or nil pointer dereference"
  | some n =>
    let m := { m with wg := some (n + 1) }
    match m.flush with
    | none => Call.blocked m
    | some k => Call.waiting { m with flush := some (k + 1) }

/-- The method `Close` of `monitor.go`, up to its send on `m.halt`. -/
def Close (m : Monitor) : Call :=
  match m.halt with
  | none => Call.blocked m
  | some k => Call.waiting { m with halt := some (k + 1) }

/-- The worker a call of `New` has started, if it returned one. -/
def NewResult.worker : NewResult → Option Worker
  | NewResult.ok w => some w
  | _ => none

/-- Whether a call ended in a panic. -/
def Call.isPanic : Call → Bool
  | Call.panic _ => true
  | _ => false

/-- Whether a call is suspended for ever. -/
def Call.isBlocked : Call → Bool
  | Call.blocked _ => true
  | _ => false

/-- The functions of `encoding/json` used by `telegraph.Upload`: decoding of the
body into `uploads` (the `src` of each element) and into a map of strings. -/
structure telegraph.Decoder where
  uploads : String → Except String (List String)
  object : String → Except String (String → String)

/-- The remote host: the answer to the POST of the form holding the file, as
read by `ioutil.ReadAll`, or the error of the request. -/
structure telegraph.Host where
  post : String → Except String String

/-- What a call of `telegraph.Upload` ends with: the two results of the
function, or a panic. -/
inductive telegraph.Result where
  | ok (url : String)
  | error (err : String)
  | panic (msg : String)
deriving DecidableEq, Repr

/-- The function `Upload` of `telegraph.go`; `r` is the content of the reader,
or the error of reading it. -/
def telegraph.Upload (json : telegraph.Decoder) (host : telegraph.Host)
    (r : Except String String) : telegraph.Result :=
  match r with
  | Except.error err => telegraph.Result.error err
  | Except.ok file =>
    match host.post file with
    | Except.error err => telegraph.Result.error err
    | Except.ok data =>
      match json.uploads data with
      | Except.error _ =>
        match json.object data with
        | Except.error err => telegraph.Result.error err
        | Except.ok m => telegraph.Result.error ("telegraph: " ++ m "error")
      | Except.ok uploads =>
        match uploads with
        | [] => telegraph.Result.panic "index out of range [0] with length 0"
        | path :: _ => telegraph.Result.ok ("https://telegra.ph/" ++ path)

/-- The tag of the first present capability of a list checked in order; the
empty string when none is present. -/
def firstPresent : List (Bool × String) → String
  | [] => ""
  | (present, tag) :: rest => if present then tag else firstPresent rest

/-- The handler that does nothing and returns nil. -/
def passHandler : HandlerFunc := fun _ m => some (m, none)

/-- The `Update` held by a value, if it is one. -/
def Value.asUpdate : Value → Option Update
  | Value.update u => some u
  | _ => none

/-- The `Record` held by a value, if it is one. -/
def Value.asRecord : Value → Option Record
  | Value.record r => some r
  | _ => none

/-- The state and the actions of an outcome in which a case was taken. -/
def Outcome.result : Outcome → Option (Worker × List Label)
  | Outcome.next w trace => some (w, trace)
  | Outcome.notReady => none
  | Outcome.fault w trace => some (w, trace)
  | Outcome.stuck w trace => some (w, trace)

/-- A sink that rejects the first statement it receives and accepts the
following ones. -/
def rejectFirst : DB :=
  { respond := fun history _ => if history.isEmpty then some "rejected" else none }

/-- An update of type "message" with the given identifier. -/
def sampleUpdate (i : Nat) : Update :=
  { Time := { unix := 1700000000 + i }, ID := i, Typ := "message", UserID := 7, Text := "hi" }

/-- A log record of level "error". -/
def sampleRecord : Record :=
  { Time := { unix := 1700000001 }, UpdateID := 42, Level := "error", Message := "boom" }

/-- An instant used in the examples. -/
def t0 : Time := { unix := 1700000000 }

/-- A service message arriving from user 7: rejected by `newUpdate`. -/
def serviceEvent : tele.Context :=
  { Message := some { ID := 5, IsService := true }
    Sender := some { ID := 7 }
    Update := { ID := 1 } }

/-- A text message together with a callback carrying data. -/
def callbackEvent : tele.Context :=
  { Callback := some { Unique := "btn", Data := "x" }
    Message := some { ID := 5 }
    Sender := some { ID := 7 }
    Text := "hello"
    Update := { ID := 2 } }

/-- A plain text message from user 7 in chat 9. -/
def textEvent : tele.Context :=
  { Message := some { ID := 6 }
    Sender := some { ID := 7 }
    Chat := some { ID := 9 }
    Text := "hi"
    Update := { ID := 3 } }

/-- A sink that accepts every statement. -/
def acceptAll : DB := { respond := fun _ _ => none }

/-- A sink that rejects every statement. -/
def rejectAll : DB := { respond := fun _ _ => some "rejected" }

/-- A worker with capacity 2, an empty accumulator and three updates waiting on
the bus. -/
def smallWorker : Worker :=
  { m :=
      { db := acceptAll
        bus :=
          { cap := 2
            queue :=
              [Value.update (sampleUpdate 1), Value.update (sampleUpdate 2),
                Value.update (sampleUpdate 3)] } } }

/-- A worker with capacity 1000, an empty bus, an empty accumulator and a sink
that accepts every statement. -/
def thousandWorker : Worker :=
  { m := { db := acceptAll, bus := { cap := 1000 } } }

/-- The updates `sampleUpdate 0`, ..., `sampleUpdate (k - 1)`. -/
def sampleUpdates (k : Nat) : List Update := (List.range k).map sampleUpdate

/-- A photo message that also carries a chosen inline result. -/
def resultOnMessageEvent : tele.Context :=
  { Message := some { ID := 5, Photo := some { FileID := "f" } }
    InlineResult := some { MessageID := "im1", ResultID := "r1" }
    Sender := some { ID := 7 }
    Update := { ID := 4 } }

/-- A callback from a button under a forwarded photo message that is a reply. -/
def callbackOnPhotoEvent : tele.Context :=
  { Callback := some { Unique := "btn", Data := "x" }
    Message :=
      some { ID := 5, IsForwarded := true, IsReply := true, Photo := some { FileID := "f" } }
    Sender := some { ID := 7 }
    Update := { ID := 5 } }

/-- A chosen inline result, with nothing else attached. -/
def inlineResultEvent : tele.Context :=
  { InlineResult := some { MessageID := "im1", ResultID := "r1" }
    Sender := some { ID := 7 }
    Update := { ID := 6 } }

/-- The values received from the bus along a trace, in order. -/
def receivedValues : List Label → List Value
  | [] => []
  | Label.received v :: rest => v :: receivedValues rest
  | Label.flushed _ _ :: rest => receivedValues rest

/-- The batches handed to `m.insertBatch` along a trace, concatenated in the
order of the calls. -/
def flushedValues : List Label → List Value
  | [] => []
  | Label.received _ :: rest => flushedValues rest
  | Label.flushed _ batch :: rest => batch ++ flushedValues rest

/-- The number of `?` placeholders in a statement text. -/
def placeholders (query : String) : Nat := query.data.count '?'

/-- An encoder for objects with integer members whose keys need no escaping,
in the order given; `Indent` is left as the identity. -/
def sampleJSON : JSON (List (String × Int)) :=
  { Marshal := fun members =>
      some ("\x7b" ++
        String.intercalate "," (members.map fun kv => "\"" ++ kv.1 ++ "\":" ++ toString kv.2) ++
        "\x7d")
    Indent := fun text => text }

/-- The context of the update with identifier 42. -/
def event42 : tele.Context :=
  { Message := some { ID := 6 }
    Sender := some { ID := 7 }
    Update := { ID := 42 } }

/-- A monitor with room for two records on its bus and nothing else set. -/
def emptyMonitor : Monitor := { db := acceptAll, bus := { cap := 2 } }

/-- A store that can be reached and accepts every statement. -/
def reachableDriver : Driver :=
  { Open := fun _ => Except.ok acceptAll
    Ping := fun _ => none }

/-- A worker whose monitor has its wait group and both signal channels set, with
a call of `Close` suspended in its send on `halt`, and one record in the
accumulator. -/
def haltWorker : Worker :=
  { m := { db := acceptAll, bus := { cap := 2 }, wg := some 0, flush := some 0, halt := some 1 }
    buffer := [Value.record sampleRecord] }

/-- A decoder that knows the empty array and one array of a single upload. -/
def sampleDecoder : telegraph.Decoder :=
  { uploads := fun data =>
      if data = "[]" then Except.ok []
      else if data = "[\x7b\"src\":\"/file/a.png\"\x7d]" then Except.ok ["/file/a.png"]
      else Except.error "json: cannot unmarshal object into Go value"
    object := fun _ => Except.ok fun _ => "" }

/-- A host that answers every upload with the empty array. -/
def emptyArrayHost : telegraph.Host := { post := fun _ => Except.ok "[]" }

/-- The record a severity method with tag `level` is to enqueue for the message
`msg`: the identifier of the update of `c` (0 without a context) and the
encoding of the first payload (empty without a payload). -/
def expectedRecord {M : Type} (json : JSON M) (now : Time) (c : Option tele.Context)
    (level msg : String) (payload : List M) : Record :=
  { Time := now
    UpdateID :=
      match c with
      | some c => toUint c.Update.ID
      | none => 0
    Level := level
    Message := msg
    Payload :=
      match payload with
      | [] => ""
      | p :: _ => (json.Marshal p).getD "" }

/-- The batches handed to `m.insertBatch` along a trace, one per call, in the
order of the calls. -/
def writerCalls : List Label → List (List Value)
  | [] => []
  | Label.received _ :: rest => writerCalls rest
  | Label.flushed _ batch :: rest => batch :: writerCalls rest

/-- The values that producers have sent on the bus along a sequence of events,
in order. -/
def sentValues : List Event → List Value
  | [] => []
  | Event.send v :: rest => v :: sentValues rest
  | _ :: rest => sentValues rest

/-- The sink after `insertBatch` has been called on each batch in turn. -/
def handOver (db : DB) (batches : List (List Value)) : DB :=
  batches.foldl (fun db batch => (insertBatch db batch).1) db

/-- The statements `insertBatch` issues for a batch when the sink accepts them:
the updates statement if the batch holds an update, then the log statement if
it holds a record. -/
def statementsOf (batch : List Value) : List Statement :=
  (if batch.filterMap Value.asUpdate = [] then []
    else [insertUpdates.statement (batch.filterMap Value.asUpdate)]) ++
  (if batch.filterMap Value.asRecord = [] then []
    else [insertRecords.statement (batch.filterMap Value.asRecord)])

/-! ## Event normalisation -/

theorem updateType_eq_empty_iff (c : tele.Context) :
    updateType c = "" ↔
      (c.Callback = none ∧ c.Message = none ∧ c.Query = none ∧ c.InlineResult = none ∧
        c.ShippingQuery = none ∧ c.PreCheckoutQuery = none ∧ c.ChatMember = none) := by
  unfold updateType
  cases c.Callback <;> cases c.Message <;> cases c.Query <;> cases c.InlineResult <;>
    cases c.ShippingQuery <;> cases c.PreCheckoutQuery <;> cases c.ChatMember <;> simp

theorem newUpdate_ok_iff (now : Time) (c : tele.Context) :
    (newUpdate now c).2 = true ↔
      (updateType c ≠ "" ∧ c.Sender ≠ none ∧ ∀ msg, c.Message = some msg → msg.IsService = false) := by
  unfold newUpdate
  by_cases h : updateType c = ""
  · simp [h]
  · cases hs : c.Sender with
    | none => simp [h]
    | some sender =>
      cases hm : c.Message with
      | none => simp [h]
      | some msg => cases hsv : msg.IsService <;> simp [h, hsv]

theorem newUpdate_ok_build (now : Time) (c : tele.Context) (h : (newUpdate now c).2 = true) :
    ∃ sender, c.Sender = some sender ∧
      (newUpdate now c).1 = newUpdate.build now c (updateType c) sender c.Message := by
  unfold newUpdate at h ⊢
  by_cases h0 : updateType c = ""
  · simp [h0] at h
  · cases hs : c.Sender with
    | none => simp [h0, hs] at h
    | some sender =>
      refine ⟨sender, rfl, ?_⟩
      simp only [h0, hs, if_false] at h ⊢
      split at h
      · simp at h
      · rename_i hcond
        simp only [hcond]
        simp

theorem build_Typ (now : Time) (c : tele.Context) (utype : String) (sender : tele.User)
    (msg : Option tele.Message) : (newUpdate.build now c utype sender msg).Typ = utype := by
  unfold newUpdate.build
  cases c.Chat <;> cases msg <;> cases c.Callback <;> cases c.InlineResult <;>
    simp <;> split_ifs <;> simp

theorem build_Text (now : Time) (c : tele.Context) (utype : String) (sender : tele.User)
    (msg : Option tele.Message) :
    (newUpdate.build now c utype sender msg).Text =
      match c.Callback with
      | some clb => if clb.Data ≠ "" then clb.Unique ++ ("|" ++ clb.Data) else clb.Unique
      | none => if c.Text = "" then c.Data else c.Text := by
  unfold newUpdate.build
  cases c.Chat <;> cases msg <;> cases c.Callback <;> cases c.InlineResult <;>
    simp <;> split_ifs <;> simp

/-- C1. `newUpdate` answers `ok = false` exactly when `updateType` is empty
(which happens exactly when none of the seven capabilities is present), or
there is no sender, or the attached message is a service message. The handler
of `Middleware` sends on the bus exactly when `ok` is true: a rejected event
goes to `next` in the unchanged state, an accepted one goes to `next` after the
send of its record, and with the do-nothing handler the queue grows by exactly
one record when accepted and keeps its length when rejected. -/
theorem newUpdate_rejects_iff_and_Middleware (now : Time) (c : tele.Context)
    (next : HandlerFunc) (m : Monitor) :
    ((newUpdate now c).2 = false ↔
      (updateType c = "" ∨ c.Sender = none ∨
        ∃ msg, c.Message = some msg ∧ msg.IsService = true)) ∧
    (updateType c = "" ↔
      (c.Callback = none ∧ c.Message = none ∧ c.Query = none ∧ c.InlineResult = none ∧
        c.ShippingQuery = none ∧ c.PreCheckoutQuery = none ∧ c.ChatMember = none)) ∧
    ((newUpdate now c).2 = false → Middleware now next c m = next c m) ∧
    ((newUpdate now c).2 = true →
      Middleware now next c m =
        (m.bus.send (Value.update (newUpdate now c).1)).bind
          fun bus => next c { m with bus := bus }) ∧
    ((newUpdate now c).2 = false → Middleware now passHandler c m = some (m, none)) ∧
    ((newUpdate now c).2 = true → m.bus.queue.length < m.bus.cap →
      Middleware now passHandler c m =
        some ({ m with bus :=
          { m.bus with queue := m.bus.queue ++ [Value.update (newUpdate now c).1] } }, none)) ∧
    (∀ m1 err, Middleware now passHandler c m = some (m1, err) →
      m1.bus.queue.length = m.bus.queue.length + (if (newUpdate now c).2 then 1 else 0)) := by
  refine ⟨?_, updateType_eq_empty_iff c, ?_, ?_, ?_, ?_, ?_⟩
  · have h := newUpdate_ok_iff now c
    cases hb : (newUpdate now c).2
    · simp only [true_iff]
      rw [hb] at h
      by_contra hcon
      push_neg at hcon
      have : false = true := h.2 ⟨hcon.1, hcon.2.1, fun msg hm => by
        have := hcon.2.2 msg hm
        simpa using this⟩
      exact Bool.noConfusion this
    · rw [hb] at h
      simp only [Bool.true_eq_false, false_iff]
      obtain ⟨h1, h2, h3⟩ := h.1 rfl
      rintro (h | h | ⟨msg, hm, hsv⟩)
      · exact h1 h
      · exact h2 h
      · rw [h3 msg hm] at hsv
        exact Bool.noConfusion hsv
  · intro h
    simp [Middleware, h]
  · intro h
    simp only [Middleware, h, if_true]
    cases m.bus.send (Value.update (newUpdate now c).1) <;> rfl
  · intro h
    simp [Middleware, h, passHandler]
  · intro h hroom
    simp [Middleware, h, passHandler, Chan.send, hroom]
  · intro m1 err h
    cases hb : (newUpdate now c).2
    · simp [Middleware, hb, passHandler] at h
      simp [← h.1]
    · simp only [Middleware, hb, if_true, passHandler, Chan.send] at h
      split_ifs at h with hroom
      simp at h
      simp [← h.1]

/-- Witness for C1: a service message is rejected and leaves the monitor as it
was. -/
theorem newUpdate_rejects_iff_and_Middleware_witness :
    (newUpdate t0 serviceEvent).2 = false ∧
      Middleware t0 passHandler serviceEvent { db := acceptAll, bus := { cap := 2 } } =
        some ({ db := acceptAll, bus := { cap := 2 } }, none) :=
  have h := newUpdate_rejects_iff_and_Middleware t0 serviceEvent passHandler
    { db := acceptAll, bus := { cap := 2 } }
  have hrej : (newUpdate t0 serviceEvent).2 = false :=
    h.1.2 (Or.inr (Or.inr ⟨{ ID := 5, IsService := true }, rfl, rfl⟩))
  ⟨hrej, h.2.2.2.2.1 hrej⟩

/-- C2. `updateType` is the tag of the first present capability in the order
callback, message, inline_query, inline_result, shipping_query,
pre_checkout_query, chat_member; an event with a callback is a "callback"
whatever else it carries (so never a "message"); and the `Type` of every
accepted update is one of the seven tags. -/
theorem updateType_first_present (now : Time) (c : tele.Context) :
    updateType c =
      firstPresent
        [(c.Callback.isSome, "callback"), (c.Message.isSome, "message"),
          (c.Query.isSome, "inline_query"), (c.InlineResult.isSome, "inline_result"),
          (c.ShippingQuery.isSome, "shipping_query"),
          (c.PreCheckoutQuery.isSome, "pre_checkout_query"),
          (c.ChatMember.isSome, "chat_member")] ∧
    (c.Callback ≠ none → updateType c = "callback" ∧ updateType c ≠ "message") ∧
    ((newUpdate now c).2 = true →
      (newUpdate now c).1.Typ = updateType c ∧
      (newUpdate now c).1.Typ ∈
        ["callback", "message", "inline_query", "inline_result", "shipping_query",
          "pre_checkout_query", "chat_member"]) := by
  refine ⟨?_, ?_, ?_⟩
  · simp only [updateType, firstPresent]
  · intro h
    cases hc : c.Callback with
    | none => exact absurd hc h
    | some clb => simp [updateType, hc]
  · intro h
    obtain ⟨sender, -, hb⟩ := newUpdate_ok_build now c h
    have hne : updateType c ≠ "" := ((newUpdate_ok_iff now c).1 h).1
    rw [hb, build_Typ]
    refine ⟨rfl, ?_⟩
    revert hne
    unfold updateType
    split_ifs <;> simp

/-- Witness for C2: a message that also carries a callback is accepted and
classified as "callback". -/
theorem updateType_first_present_witness :
    updateType callbackEvent = "callback" ∧ updateType callbackEvent ≠ "message" ∧
      (newUpdate t0 callbackEvent).1.Typ = updateType callbackEvent :=
  have h := updateType_first_present t0 callbackEvent
  have hc := h.2.1 (by decide)
  ⟨hc.1, hc.2, (h.2.2 (by decide)).1⟩

/-- C9, as stated, fails: an accepted event with primary text "hello" and a
callback `btn` carrying data "x" gets the text "btn|x", not "hello". -/
theorem text_precedence_counterexample :
    (newUpdate t0 callbackEvent).2 = true ∧
      callbackEvent.Text = "hello" ∧
      callbackEvent.Callback = some { Unique := "btn", Data := "x" } ∧
      (newUpdate t0 callbackEvent).1.Text = "btn|x" ∧
      (newUpdate t0 callbackEvent).1.Text ≠ callbackEvent.Text := by
  decide

/-- C9, amended. For an accepted event with a callback carrying data the text
is the callback form `Unique|Data`, whether the primary text is empty or not;
the primary text is the text of an accepted event that has no callback and a
non-empty primary text. -/
theorem text_precedence (now : Time) (c : tele.Context) (h : (newUpdate now c).2 = true) :
    (∀ clb, c.Callback = some clb → clb.Data ≠ "" →
      (newUpdate now c).1.Text = clb.Unique ++ "|" ++ clb.Data) ∧
    (c.Callback = none → c.Text ≠ "" → (newUpdate now c).1.Text = c.Text) := by
  obtain ⟨sender, -, hb⟩ := newUpdate_ok_build now c h
  rw [hb, build_Text]
  constructor
  · intro clb hc hd
    simp [hc, hd, String.append_assoc]
  · intro hc ht
    simp [hc, ht]

/-- Witness for C9 amended, at the event of the counterexample. -/
theorem text_precedence_witness :
    (newUpdate t0 callbackEvent).2 = true ∧
      (newUpdate t0 callbackEvent).1.Text = "btn" ++ "|" ++ "x" :=
  ⟨by decide,
    (text_precedence t0 callbackEvent (by decide)).1 { Unique := "btn", Data := "x" } rfl
      (by decide)⟩

/-- C10. For an accepted event with a callback `clb` the text is `clb.Unique`
followed by "|" and `clb.Data` when `clb.Data` is non-empty and exactly
`clb.Unique` when it is empty, whatever `c.Text()` and `c.Data()` are; for an
accepted event without a callback it is `c.Text()` when non-empty and
`c.Data()` otherwise. -/
theorem newUpdate_Text (now : Time) (c : tele.Context) (h : (newUpdate now c).2 = true) :
    (∀ clb, c.Callback = some clb →
      (newUpdate now c).1.Text =
        if clb.Data ≠ "" then clb.Unique ++ "|" ++ clb.Data else clb.Unique) ∧
    (c.Callback = none →
      (newUpdate now c).1.Text = if c.Text ≠ "" then c.Text else c.Data) := by
  obtain ⟨sender, -, hb⟩ := newUpdate_ok_build now c h
  rw [hb, build_Text]
  constructor
  · intro clb hc
    simp only [hc, String.append_assoc]
  · intro hc
    simp only [hc]
    by_cases ht : c.Text = "" <;> simp [ht]

/-- Witness for C10: a plain text message keeps its primary text. -/
theorem newUpdate_Text_witness :
    (newUpdate t0 textEvent).2 = true ∧
      (newUpdate t0 textEvent).1.Text = if textEvent.Text ≠ "" then textEvent.Text else textEvent.Data :=
  ⟨by decide, (newUpdate_Text t0 textEvent (by decide)).2 rfl⟩

/-! ## The bulk writer -/

theorem insertBatch_loop_foldl (values : List Value) (acc : List Update × List Record) :
    values.foldl insertBatch.visit acc =
      (acc.1 ++ values.filterMap Value.asUpdate, acc.2 ++ values.filterMap Value.asRecord) := by
  induction values generalizing acc with
  | nil => simp
  | cons v rest ih =>
    rw [List.foldl_cons, ih]
    cases v <;> simp [insertBatch.visit, Value.asUpdate, Value.asRecord]

theorem insertBatch_loop_eq (values : List Value) :
    insertBatch.loop values =
      (values.filterMap Value.asUpdate, values.filterMap Value.asRecord) := by
  simp [insertBatch.loop, insertBatch_loop_foldl]

theorem partition_length (values : List Value)
    (h : ∀ v ∈ values, (∃ u, v = Value.update u) ∨ ∃ r, v = Value.record r) :
    (values.filterMap Value.asUpdate).length + (values.filterMap Value.asRecord).length =
      values.length := by
  induction values with
  | nil => rfl
  | cons v rest ih =>
    have ih1 := ih fun x hx => h x (List.mem_cons_of_mem _ hx)
    rcases h v (List.mem_cons_self _ _) with ⟨u, rfl⟩ | ⟨r, rfl⟩
    · simp [Value.asUpdate, Value.asRecord] at ih1 ⊢
      omega
    · simp [Value.asUpdate, Value.asRecord] at ih1 ⊢
      omega

theorem Exec_history (db : DB) (query : String) (args : List Arg) :
    (db.Exec query args).1.history = db.history ++ [{ query := query, args := args }] ∧
      (db.Exec query args).1.respond = db.respond ∧
      (db.Exec query args).2 = db.respond db.history { query := query, args := args } := by
  simp [DB.Exec]

/-- The behaviour of `insertBatch` in terms of the two partitions: the updates
statement goes first when there is an update; the log statement follows when
there is a record and the updates statement was not rejected. -/
theorem insertBatch_history (db : DB) (values : List Value) :
    (insertBatch db values).1.respond = db.respond ∧
    (insertBatch db values).1.history =
      db.history ++
        (if values.filterMap Value.asUpdate = [] then []
          else [insertUpdates.statement (values.filterMap Value.asUpdate)]) ++
        (if values.filterMap Value.asRecord = [] then []
          else if values.filterMap Value.asUpdate ≠ [] ∧
              (db.respond db.history
                (insertUpdates.statement (values.filterMap Value.asUpdate))).isSome then []
          else [insertRecords.statement (values.filterMap Value.asRecord)]) := by
  unfold insertBatch
  cases values with
  | nil => simp
  | cons v rest =>
    simp only [List.length_cons, Nat.succ_ne_zero, if_false, insertBatch_loop_eq]
    generalize (v :: rest).filterMap Value.asUpdate = us
    generalize (v :: rest).filterMap Value.asRecord = rs
    cases us with
    | nil =>
      cases rs with
      | nil => simp
      | cons r rs =>
        cases hr : db.respond db.history (insertRecords.statement (r :: rs)) <;>
          simp [insertRecords, DB.Exec, hr]
    | cons u us =>
      cases hu : db.respond db.history (insertUpdates.statement (u :: us)) with
      | some e => cases rs <;> simp [insertUpdates, DB.Exec, hu]
      | none =>
        cases rs with
        | nil => simp [insertUpdates, DB.Exec, hu]
        | cons r rs =>
          cases hr : db.respond (db.history ++ [insertUpdates.statement (u :: us)])
              (insertRecords.statement (r :: rs)) <;>
            simp [insertUpdates, insertRecords, DB.Exec, hu, hr]

/-- The error returned by `insertBatch`: the answer of the sink to the updates
statement when there is an update and it is rejected; otherwise the answer to
the log statement when there is a record; otherwise nil. -/
theorem insertBatch_error (db : DB) (values : List Value) :
    (insertBatch db values).2 =
      if values.filterMap Value.asUpdate = [] then
        if values.filterMap Value.asRecord = [] then none
        else db.respond db.history (insertRecords.statement (values.filterMap Value.asRecord))
      else
        match db.respond db.history
            (insertUpdates.statement (values.filterMap Value.asUpdate)) with
        | some e => some e
        | none =>
          if values.filterMap Value.asRecord = [] then none
          else
            db.respond
              (db.history ++ [insertUpdates.statement (values.filterMap Value.asUpdate)])
              (insertRecords.statement (values.filterMap Value.asRecord)) := by
  unfold insertBatch
  cases values with
  | nil => simp
  | cons v rest =>
    simp only [List.length_cons, Nat.succ_ne_zero, if_false, insertBatch_loop_eq]
    generalize (v :: rest).filterMap Value.asUpdate = us
    generalize (v :: rest).filterMap Value.asRecord = rs
    cases us with
    | nil =>
      cases rs with
      | nil => simp
      | cons r rs =>
        cases hr : db.respond db.history (insertRecords.statement (r :: rs)) <;>
          simp [insertRecords, DB.Exec, hr]
    | cons u us =>
      cases hu : db.respond db.history (insertUpdates.statement (u :: us)) with
      | some e => cases rs <;> simp [insertUpdates, DB.Exec, hu]
      | none =>
        cases rs with
        | nil => simp [insertUpdates, DB.Exec, hu]
        | cons r rs =>
          cases hr : db.respond (db.history ++ [insertUpdates.statement (u :: us)])
              (insertRecords.statement (r :: rs)) <;>
            simp [insertUpdates, insertRecords, DB.Exec, hu, hr]

/-- C4, as stated, fails: on a batch of one update and one record, with a sink
that rejects the first statement only, `insertBatch` issues the updates
statement, returns its error and never issues the log statement. -/
theorem insertBatch_independent_counterexample :
    (insertBatch rejectFirst [Value.update (sampleUpdate 1), Value.record sampleRecord]).1.history =
        [insertUpdates.statement [sampleUpdate 1]] ∧
      (insertBatch rejectFirst [Value.update (sampleUpdate 1), Value.record sampleRecord]).2 =
        some "rejected" ∧
      insertRecords.statement [sampleRecord] ∉
        (insertBatch rejectFirst
          [Value.update (sampleUpdate 1), Value.record sampleRecord]).1.history := by
  have h1 : (insertBatch rejectFirst
      [Value.update (sampleUpdate 1), Value.record sampleRecord]).1.history =
      [insertUpdates.statement [sampleUpdate 1]] := rfl
  refine ⟨h1, rfl, ?_⟩
  rw [h1]
  simp [insertRecords.statement, insertUpdates.statement, insertRecords.loop,
    insertUpdates.loop, insertRecords.row, insertUpdates.row]

/-- C4, amended. On a batch with at least one update and one record,
`insertBatch` issues the updates statement first. When the sink accepts it,
the log statement is issued next and, whether the log statement is accepted or
rejected, the statements issued are exactly these two, once each, and the
result is the answer to the log statement. When the sink rejects the updates
statement, `insertBatch` returns that error and issues nothing else. -/
theorem insertBatch_two_statements (db : DB) (values : List Value)
    (hu : values.filterMap Value.asUpdate ≠ [])
    (hr : values.filterMap Value.asRecord ≠ []) :
    (db.respond db.history (insertUpdates.statement (values.filterMap Value.asUpdate)) = none →
      (insertBatch db values).1.history =
          db.history ++
            [insertUpdates.statement (values.filterMap Value.asUpdate),
              insertRecords.statement (values.filterMap Value.asRecord)] ∧
        (insertBatch db values).2 =
          db.respond
            (db.history ++ [insertUpdates.statement (values.filterMap Value.asUpdate)])
            (insertRecords.statement (values.filterMap Value.asRecord))) ∧
    (∀ e,
      db.respond db.history (insertUpdates.statement (values.filterMap Value.asUpdate)) =
          some e →
        (insertBatch db values).1.history =
            db.history ++ [insertUpdates.statement (values.filterMap Value.asUpdate)] ∧
          (insertBatch db values).2 = some e) := by
  have hh := (insertBatch_history db values).2
  have he := insertBatch_error db values
  constructor
  · intro hacc
    rw [hh, he]
    simp [hu, hr, hacc]
  · intro e hrej
    rw [hh, he]
    simp [hu, hr, hrej]

/-- Witness for C4 amended, at the batch and sink of the counterexample. -/
theorem insertBatch_two_statements_witness :
    (insertBatch rejectFirst [Value.update (sampleUpdate 1), Value.record sampleRecord]).1.history =
        rejectFirst.history ++ [insertUpdates.statement [sampleUpdate 1]] ∧
      (insertBatch rejectFirst [Value.update (sampleUpdate 1), Value.record sampleRecord]).2 =
        some "rejected" :=
  (insertBatch_two_statements rejectFirst
    [Value.update (sampleUpdate 1), Value.record sampleRecord] (by decide) (by decide)).2
    "rejected" rfl

/-- C5. With a sink that accepts every statement and a batch of `Update` and
`Record` values, `insertBatch` partitions the batch in order: its `updates` are
the updates of the batch in batch order, its `records` the records in batch
order, the two lengths add up to the length of the batch, and it issues one
statement per non-empty partition and no other (the updates statement before
the log statement), returning nil. -/
theorem insertBatch_partition (db : DB) (values : List Value)
    (hacc : ∀ history st, db.respond history st = none)
    (hkind : ∀ v ∈ values, (∃ u, v = Value.update u) ∨ ∃ r, v = Value.record r) :
    insertBatch.loop values =
        (values.filterMap Value.asUpdate, values.filterMap Value.asRecord) ∧
      (insertBatch.loop values).1.length + (insertBatch.loop values).2.length = values.length ∧
      (insertBatch db values).1.history =
        db.history ++
          (if (insertBatch.loop values).1 = [] then []
            else [insertUpdates.statement (insertBatch.loop values).1]) ++
          (if (insertBatch.loop values).2 = [] then []
            else [insertRecords.statement (insertBatch.loop values).2]) ∧
      (insertBatch db values).1.history.length =
        db.history.length + (if (insertBatch.loop values).1 = [] then 0 else 1) +
          (if (insertBatch.loop values).2 = [] then 0 else 1) ∧
      (insertBatch db values).2 = none := by
  have hh := (insertBatch_history db values).2
  have he := insertBatch_error db values
  rw [insertBatch_loop_eq]
  simp only [hacc, Option.isSome_none, Bool.false_eq_true, and_false, if_false] at hh he
  refine ⟨rfl, partition_length values hkind, hh, ?_, ?_⟩
  · rw [hh]
    simp only [List.length_append]
    split_ifs <;> simp
  · rw [he]
    split_ifs <;> rfl

/-- Witness for C5: an update, a record and a second update. -/
theorem insertBatch_partition_witness :
    insertBatch.loop
        [Value.update (sampleUpdate 1), Value.record sampleRecord, Value.update (sampleUpdate 2)] =
      ([sampleUpdate 1, sampleUpdate 2], [sampleRecord]) :=
  (insertBatch_partition acceptAll
    [Value.update (sampleUpdate 1), Value.record sampleRecord, Value.update (sampleUpdate 2)]
    (fun _ _ => rfl)
    (by
      intro v hv
      simp only [List.mem_cons, List.mem_singleton, List.not_mem_nil, or_false] at hv
      rcases hv with rfl | rfl | rfl <;> simp)).1

/-! ## The batch worker -/

theorem closure_spec (w : Worker) :
    (startBatchWorker.insertBatch w).buffer = [] ∧
      (startBatchWorker.insertBatch w).m.db = (insertBatch w.m.db w.buffer).1 ∧
      (startBatchWorker.insertBatch w).m.bus = w.m.bus ∧
      (startBatchWorker.insertBatch w).m.wg = w.m.wg ∧
      (startBatchWorker.insertBatch w).m.flush = w.m.flush ∧
      (startBatchWorker.insertBatch w).m.halt = w.m.halt :=
  ⟨rfl, rfl, rfl, rfl, rfl, rfl⟩

theorem closure_empty (w : Worker) (h : w.buffer = []) : startBatchWorker.insertBatch w = w := by
  cases w with
  | mk m buffer stdlog =>
    simp only at h
    subst h
    rfl

theorem select_ticker (w : Worker) :
    startBatchWorker.select w Case.ticker =
      Outcome.next (startBatchWorker.insertBatch w) [Label.flushed Trigger.timer w.buffer] :=
  rfl

theorem select_bus_cons (w : Worker) (v : Value) (rest : List Value)
    (hq : w.m.bus.queue = v :: rest) :
    startBatchWorker.select w Case.bus =
      if w.m.bus.cap ≤ w.buffer.length + 1 then
        Outcome.next
          (startBatchWorker.insertBatch
            { w with
              m := { w.m with bus := { w.m.bus with queue := rest } }
              buffer := w.buffer ++ [v] })
          [Label.received v, Label.flushed Trigger.capacity (w.buffer ++ [v])]
      else
        Outcome.next
          { w with
            m := { w.m with bus := { w.m.bus with queue := rest } }
            buffer := w.buffer ++ [v] }
          [Label.received v] := by
  simp only [startBatchWorker.select, Chan.recv, hq, List.length_append, List.length_singleton,
    ge_iff_le]

theorem select_bus_nil (w : Worker) (hq : w.m.bus.queue = []) :
    startBatchWorker.select w Case.bus = Outcome.notReady := by
  simp only [startBatchWorker.select, Chan.recv, hq]

theorem select_flush_succ (w : Worker) (k : Nat) (hf : w.m.flush = some (k + 1)) :
    startBatchWorker.select w Case.flush =
      match w.m.wg with
      | some n =>
        if n - 1 < 0 then
          Outcome.fault
            (startBatchWorker.insertBatch { w with m := { w.m with flush := some k } })
            [Label.flushed Trigger.explicit w.buffer, Label.flushed Trigger.deferred []]
        else
          Outcome.next
            { m := { w.m with
                      flush := some k
                      db := (insertBatch w.m.db w.buffer).1
                      wg := some (n - 1) }
              buffer := []
              stdlog :=
                (startBatchWorker.insertBatch { w with m := { w.m with flush := some k } }).stdlog }
            [Label.flushed Trigger.explicit w.buffer]
      | none =>
        Outcome.fault
          (startBatchWorker.insertBatch { w with m := { w.m with flush := some k } })
          [Label.flushed Trigger.explicit w.buffer, Label.flushed Trigger.deferred []] := by
  simp only [startBatchWorker.select, hf]
  cases hw : w.m.wg with
  | none =>
    simp only [startBatchWorker.insertBatch, hw]
    congr 1
  | some n =>
    simp only [startBatchWorker.insertBatch, hw]
    split_ifs
    · congr 1
    · rfl

theorem run_cons (w : Worker) (e : Event) (es : List Event) :
    startBatchWorker.run w (e :: es) =
      (startBatchWorker.step w e).bind fun r =>
        (startBatchWorker.run r.1 es).map fun r2 => (r2.1, r.2 ++ r2.2) := by
  simp only [startBatchWorker.run]
  cases h1 : startBatchWorker.step w e with
  | none => rfl
  | some r =>
    obtain ⟨w1, t1⟩ := r
    simp only [Option.bind]
    cases h2 : startBatchWorker.run w1 es with
    | none => rfl
    | some r2 => rfl

theorem run_append (w : Worker) (es1 es2 : List Event) :
    startBatchWorker.run w (es1 ++ es2) =
      (startBatchWorker.run w es1).bind fun r =>
        (startBatchWorker.run r.1 es2).map fun r2 => (r2.1, r.2 ++ r2.2) := by
  induction es1 generalizing w with
  | nil =>
    simp only [List.nil_append, startBatchWorker.run, Option.bind, List.nil_append]
    cases startBatchWorker.run w es2 <;> rfl
  | cons e es ih =>
    rw [List.cons_append, run_cons, run_cons]
    cases h1 : startBatchWorker.step w e with
    | none => rfl
    | some r =>
      simp only [Option.bind, ih]
      cases h2 : startBatchWorker.run r.1 es with
      | none => rfl
      | some r2 =>
        simp only [Option.bind, Option.map]
        cases h3 : startBatchWorker.run r2.1 es2 with
        | none => rfl
        | some r3 => simp only [List.append_assoc]

/-- C3. The closure `insertBatch` of the worker hands the whole accumulator to
`m.insertBatch` in one call and leaves the accumulator empty and untouched bus,
whether that call returns nil or an error (then one line is logged). Each of
the three flush steps runs it on the entire current accumulator: the timer
step; the drain step in which the accumulator reaches the capacity, with the
record just received included; the explicit-flush step. Nothing is retried: a
timer step right after a flush hands over the empty batch. -/
theorem flush_step_empties (w : Worker) :
    ((startBatchWorker.insertBatch w).buffer = [] ∧
      (startBatchWorker.insertBatch w).m.db = (insertBatch w.m.db w.buffer).1 ∧
      (startBatchWorker.insertBatch w).m.bus = w.m.bus) ∧
    ((insertBatch w.m.db w.buffer).2 = none →
      (startBatchWorker.insertBatch w).buffer = [] ∧
        (startBatchWorker.insertBatch w).stdlog = w.stdlog) ∧
    (∀ err, (insertBatch w.m.db w.buffer).2 = some err →
      (startBatchWorker.insertBatch w).buffer = [] ∧
        (startBatchWorker.insertBatch w).stdlog = w.stdlog ++ ["monitor: " ++ err]) ∧
    startBatchWorker.select w Case.ticker =
      Outcome.next (startBatchWorker.insertBatch w) [Label.flushed Trigger.timer w.buffer] ∧
    (∀ v rest, w.m.bus.queue = v :: rest → w.m.bus.cap ≤ w.buffer.length + 1 →
      startBatchWorker.select w Case.bus =
        Outcome.next
          (startBatchWorker.insertBatch
            { w with
              m := { w.m with bus := { w.m.bus with queue := rest } }
              buffer := w.buffer ++ [v] })
          [Label.received v, Label.flushed Trigger.capacity (w.buffer ++ [v])]) ∧
    (∀ k, w.m.flush = some (k + 1) →
      ∃ w1 rest,
        (startBatchWorker.select w Case.flush).result =
            some (w1, Label.flushed Trigger.explicit w.buffer :: rest) ∧
          w1.buffer = [] ∧ w1.m.db = (insertBatch w.m.db w.buffer).1 ∧ w1.m.bus = w.m.bus ∧
          ∀ l ∈ rest, l = Label.flushed Trigger.deferred []) ∧
    startBatchWorker.select (startBatchWorker.insertBatch w) Case.ticker =
      Outcome.next (startBatchWorker.insertBatch w) [Label.flushed Trigger.timer []] := by
  refine ⟨⟨rfl, rfl, rfl⟩, ?_, ?_, rfl, ?_, ?_, ?_⟩
  · intro h
    simp [startBatchWorker.insertBatch, h]
  · intro err h
    simp [startBatchWorker.insertBatch, h]
  · intro v rest hq hcap
    rw [select_bus_cons w v rest hq, if_pos hcap]
  · intro k hf
    rw [select_flush_succ w k hf]
    cases hw : w.m.wg with
    | none =>
      exact ⟨_, [Label.flushed Trigger.deferred []], rfl, rfl, rfl, rfl, by simp⟩
    | some n =>
      by_cases hn : n - 1 < 0
      · simp only [hn, if_true]
        exact ⟨_, [Label.flushed Trigger.deferred []], rfl, rfl, rfl, rfl, by simp⟩
      · simp only [hn, if_false]
        exact ⟨_, [], rfl, rfl, rfl, rfl, by simp⟩
  · rw [select_ticker, closure_empty (startBatchWorker.insertBatch w) rfl]
    rfl

/-- Witness for C3: a worker holding one update, with a sink that rejects the
statement, ends its timer flush with an empty accumulator and one logged
line. -/
theorem flush_step_empties_witness :
    (startBatchWorker.insertBatch
        { m := { db := rejectFirst, bus := { cap := 2 } },
          buffer := [Value.update (sampleUpdate 1)] }).buffer = [] ∧
      (startBatchWorker.insertBatch
        { m := { db := rejectFirst, bus := { cap := 2 } },
          buffer := [Value.update (sampleUpdate 1)] }).stdlog = [] ++ ["monitor: " ++ "rejected"] :=
  (flush_step_empties
    { m := { db := rejectFirst, bus := { cap := 2 } },
      buffer := [Value.update (sampleUpdate 1)] }).2.2.1 "rejected" rfl

/-- C6. A flush on an empty accumulator does nothing: `insertBatch` on the
empty batch returns nil and the sink it was given; with an empty accumulator
the closure of the worker and a timer step leave the whole state as it is, any
number of timer steps leaves the state one timer step leaves, an explicit-flush
step only counts down the flush request and the wait group, and after any run
of timer and explicit-flush steps the sink, the bus, the log and the (empty)
accumulator are as before and every batch handed over was empty. -/
theorem empty_flush_noop (w : Worker) (hbuf : w.buffer = []) :
    (∀ db, insertBatch db [] = (db, none)) ∧
    startBatchWorker.insertBatch w = w ∧
    startBatchWorker.select w Case.ticker =
      Outcome.next w [Label.flushed Trigger.timer []] ∧
    (∀ n, startBatchWorker.run w (List.replicate n (Event.select Case.ticker)) =
      some (w, List.replicate n (Label.flushed Trigger.timer []))) ∧
    (∀ n, (startBatchWorker.run w (List.replicate (n + 1) (Event.select Case.ticker))).map
        (fun r => r.1) =
      (startBatchWorker.run w [Event.select Case.ticker]).map fun r => r.1) ∧
    (∀ k n, w.m.flush = some (k + 1) → w.m.wg = some n → 1 ≤ n →
      startBatchWorker.select w Case.flush =
        Outcome.next { w with m := { w.m with flush := some k, wg := some (n - 1) } }
          [Label.flushed Trigger.explicit []]) ∧
    (∀ es wf trace,
      (∀ e ∈ es, e = Event.select Case.ticker ∨ e = Event.select Case.flush) →
      startBatchWorker.run w es = some (wf, trace) →
      wf.buffer = [] ∧ wf.m.db = w.m.db ∧ wf.m.bus = w.m.bus ∧ wf.stdlog = w.stdlog ∧
        ∀ l ∈ trace, ∃ t, l = Label.flushed t []) := by
  have hticks : ∀ n, startBatchWorker.run w (List.replicate n (Event.select Case.ticker)) =
      some (w, List.replicate n (Label.flushed Trigger.timer [])) := by
    intro n
    induction n with
    | zero => rfl
    | succ n ih =>
      rw [List.replicate_succ, run_cons]
      simp only [startBatchWorker.step, select_ticker, closure_empty w hbuf, Option.bind, ih, hbuf]
      rfl
  have hflush : ∀ (w : Worker), w.buffer = [] → ∀ k n, w.m.flush = some (k + 1) →
      w.m.wg = some n → 1 ≤ n →
      startBatchWorker.select w Case.flush =
        Outcome.next { w with m := { w.m with flush := some k, wg := some (n - 1) } }
          [Label.flushed Trigger.explicit []] := by
    intro w hbuf k n hf hw hn
    rw [select_flush_succ w k hf]
    have hn1 : ¬ (n - 1 < 0) := by omega
    cases w with
    | mk m buffer stdlog =>
      simp only at hbuf hw
      subst hbuf
      simp only [hw, hn1, if_false]
      rfl
  refine ⟨fun db => rfl, closure_empty w hbuf, ?_, hticks, ?_, hflush w hbuf, ?_⟩
  · rw [select_ticker, closure_empty w hbuf, hbuf]
  · intro n
    rw [hticks (n + 1)]
    have h1 := hticks 1
    simp only [List.replicate] at h1
    rw [h1]
    rfl
  · intro es
    clear hticks
    induction es generalizing w with
    | nil =>
      intro wf trace _ hrun
      simp only [startBatchWorker.run, Option.some.injEq, Prod.mk.injEq] at hrun
      obtain ⟨rfl, rfl⟩ := hrun
      exact ⟨hbuf, rfl, rfl, rfl, by simp⟩
    | cons e es ih =>
      intro wf trace hes hrun
      rw [run_cons] at hrun
      have he := hes e (List.mem_cons_self _ _)
      have hes1 : ∀ x ∈ es, x = Event.select Case.ticker ∨ x = Event.select Case.flush :=
        fun x hx => hes x (List.mem_cons_of_mem _ hx)
      rcases he with rfl | rfl
      · simp only [startBatchWorker.step, select_ticker, closure_empty w hbuf,
          Option.bind] at hrun
        cases hr : startBatchWorker.run w es with
        | none => simp [hr] at hrun
        | some r =>
          obtain ⟨w2, t2⟩ := r
          simp only [hr, Option.map, Option.some.injEq, Prod.mk.injEq] at hrun
          obtain ⟨rfl, rfl⟩ := hrun
          obtain ⟨h1, h2, h3, h4, h5⟩ := ih w hbuf w2 t2 hes1 hr
          refine ⟨h1, h2, h3, h4, ?_⟩
          intro l hl
          simp only [List.cons_append, List.nil_append, List.mem_cons] at hl
          rcases hl with rfl | hl
          · exact ⟨Trigger.timer, by rw [hbuf]⟩
          · exact h5 l hl
      · cases hf : w.m.flush with
        | none => simp [startBatchWorker.step, startBatchWorker.select, hf] at hrun
        | some j =>
          cases j with
          | zero => simp [startBatchWorker.step, startBatchWorker.select, hf] at hrun
          | succ k =>
            cases hw : w.m.wg with
            | none =>
              simp [startBatchWorker.step, select_flush_succ w k hf, hw] at hrun
            | some n =>
              by_cases hn : n - 1 < 0
              · simp [startBatchWorker.step, select_flush_succ w k hf, hw, hn] at hrun
              · have hstep := hflush w hbuf k n hf hw (by omega)
                simp only [startBatchWorker.step, hstep, Option.bind] at hrun
                cases hr : startBatchWorker.run
                    { w with m := { w.m with flush := some k, wg := some (n - 1) } } es with
                | none => simp [hr] at hrun
                | some r =>
                  obtain ⟨w2, t2⟩ := r
                  simp only [hr, Option.map, Option.some.injEq, Prod.mk.injEq] at hrun
                  obtain ⟨rfl, rfl⟩ := hrun
                  obtain ⟨h1, h2, h3, h4, h5⟩ :=
                    ih { w with m := { w.m with flush := some k, wg := some (n - 1) } }
                      hbuf w2 t2 hes1 hr
                  refine ⟨h1, h2, h3, h4, ?_⟩
                  intro l hl
                  simp only [List.cons_append, List.nil_append, List.mem_cons] at hl
                  rcases hl with rfl | hl
                  · exact ⟨Trigger.explicit, rfl⟩
                  · exact h5 l hl

/-- Witness for C6: two pending flush requests served on an empty accumulator
leave the sink without any statement. -/
theorem empty_flush_noop_witness :
    startBatchWorker.select
        { m := { db := acceptAll, bus := { cap := 2 }, flush := some 2, wg := some 2 } }
        Case.flush =
      Outcome.next
        { m := { db := acceptAll, bus := { cap := 2 }, flush := some 1, wg := some (2 - 1) } }
        [Label.flushed Trigger.explicit []] :=
  (empty_flush_noop
    { m := { db := acceptAll, bus := { cap := 2 }, flush := some 2, wg := some 2 } }
    rfl).2.2.2.2.2.1 1 2 rfl rfl (by decide)

theorem select_halt_result (w : Worker) (w1 : Worker) (t : List Label) :
    startBatchWorker.select w Case.halt ≠ Outcome.next w1 t := by
  unfold startBatchWorker.select
  cases hh : w.m.halt with
  | none => simp
  | some j =>
    cases j with
    | zero => simp
    | succ k =>
      simp only []
      split <;> simp

/-- One event keeps the accumulator below the capacity; a batch handed over on
reaching the capacity has exactly that size, any other at most that size. -/
theorem step_capacity (w : Worker) (e : Event) (w1 : Worker) (t : List Label)
    (hN : 1 ≤ w.m.bus.cap) (hlen : w.buffer.length < w.m.bus.cap)
    (hstep : startBatchWorker.step w e = some (w1, t)) :
    w1.m.bus.cap = w.m.bus.cap ∧ w1.buffer.length < w.m.bus.cap ∧
      (∀ batch, Label.flushed Trigger.capacity batch ∈ t → batch.length = w.m.bus.cap) ∧
      (∀ tr batch, Label.flushed tr batch ∈ t → batch.length ≤ w.m.bus.cap) := by
  cases e with
  | select c =>
    cases c with
    | bus =>
      cases hq : w.m.bus.queue with
      | nil => simp [startBatchWorker.step, select_bus_nil w hq] at hstep
      | cons v rest =>
        simp only [startBatchWorker.step, select_bus_cons w v rest hq] at hstep
        split_ifs at hstep with hcap
        · simp only [Option.some.injEq, Prod.mk.injEq] at hstep
          obtain ⟨rfl, rfl⟩ := hstep
          refine ⟨rfl, hN, ?_, ?_⟩
          · intro batch hb
            simp only [List.mem_cons, List.mem_singleton, Label.flushed.injEq, true_and,
              List.not_mem_nil, or_false, reduceCtorEq, false_or] at hb
            subst hb
            simp only [List.length_append, List.length_singleton]
            omega
          · intro tr batch hb
            simp only [List.mem_cons, List.mem_singleton, Label.flushed.injEq,
              List.not_mem_nil, or_false, reduceCtorEq, false_or] at hb
            obtain ⟨-, rfl⟩ := hb
            simp only [List.length_append, List.length_singleton]
            omega
        · simp only [Option.some.injEq, Prod.mk.injEq] at hstep
          obtain ⟨rfl, rfl⟩ := hstep
          refine ⟨rfl, ?_, ?_, ?_⟩
          · simp only [List.length_append, List.length_singleton]
            omega
          · intro batch hb
            simp at hb
          · intro tr batch hb
            simp at hb
    | ticker =>
      simp only [startBatchWorker.step, select_ticker, Option.some.injEq, Prod.mk.injEq] at hstep
      obtain ⟨rfl, rfl⟩ := hstep
      refine ⟨rfl, hN, ?_, ?_⟩
      · intro batch hb
        simp at hb
      · intro tr batch hb
        simp only [List.mem_singleton, Label.flushed.injEq] at hb
        obtain ⟨-, rfl⟩ := hb
        omega
    | flush =>
      cases hf : w.m.flush with
      | none => simp [startBatchWorker.step, startBatchWorker.select, hf] at hstep
      | some j =>
        cases j with
        | zero => simp [startBatchWorker.step, startBatchWorker.select, hf] at hstep
        | succ k =>
          cases hw : w.m.wg with
          | none => simp [startBatchWorker.step, select_flush_succ w k hf, hw] at hstep
          | some n =>
            by_cases hn : n - 1 < 0
            · simp [startBatchWorker.step, select_flush_succ w k hf, hw, hn] at hstep
            · simp only [startBatchWorker.step, select_flush_succ w k hf, hw, hn, if_false,
                Option.some.injEq, Prod.mk.injEq] at hstep
              obtain ⟨rfl, rfl⟩ := hstep
              refine ⟨rfl, hN, ?_, ?_⟩
              · intro batch hb
                simp at hb
              · intro tr batch hb
                simp only [List.mem_singleton, Label.flushed.injEq] at hb
                obtain ⟨-, rfl⟩ := hb
                omega
    | halt =>
      exfalso
      simp only [startBatchWorker.step] at hstep
      cases hs : startBatchWorker.select w Case.halt with
      | next w2 t2 => exact select_halt_result w w2 t2 hs
      | notReady => simp [hs] at hstep
      | fault w2 t2 => simp [hs] at hstep
      | stuck w2 t2 => simp [hs] at hstep
  | send v =>
    simp only [startBatchWorker.step, Chan.send] at hstep
    split_ifs at hstep with hroom
    simp only [Option.some.injEq, Prod.mk.injEq] at hstep
    obtain ⟨rfl, rfl⟩ := hstep
    exact ⟨rfl, hlen, by simp, by simp⟩
  | flushCall =>
    simp only [startBatchWorker.step] at hstep
    cases hw : w.m.wg with
    | none => simp [hw] at hstep
    | some n =>
      simp only [hw, Option.some.injEq, Prod.mk.injEq] at hstep
      obtain ⟨rfl, rfl⟩ := hstep
      exact ⟨rfl, hlen, by simp, by simp⟩

theorem run_capacity (es : List Event) (w : Worker) (wf : Worker) (trace : List Label)
    (hN : 1 ≤ w.m.bus.cap) (hlen : w.buffer.length < w.m.bus.cap)
    (hrun : startBatchWorker.run w es = some (wf, trace)) :
    wf.m.bus.cap = w.m.bus.cap ∧ wf.buffer.length < w.m.bus.cap ∧
      (∀ batch, Label.flushed Trigger.capacity batch ∈ trace → batch.length = w.m.bus.cap) ∧
      (∀ tr batch, Label.flushed tr batch ∈ trace → batch.length ≤ w.m.bus.cap) := by
  induction es generalizing w trace with
  | nil =>
    simp only [startBatchWorker.run, Option.some.injEq, Prod.mk.injEq] at hrun
    obtain ⟨rfl, rfl⟩ := hrun
    exact ⟨rfl, hlen, by simp, by simp⟩
  | cons e es ih =>
    rw [run_cons] at hrun
    cases hs : startBatchWorker.step w e with
    | none => simp [hs] at hrun
    | some r =>
      obtain ⟨w1, t1⟩ := r
      cases hr : startBatchWorker.run w1 es with
      | none => simp [hs, hr] at hrun
      | some r2 =>
        obtain ⟨w2, t2⟩ := r2
        simp only [hs, hr, Option.bind, Option.map, Option.some.injEq, Prod.mk.injEq] at hrun
        obtain ⟨rfl, rfl⟩ := hrun
        obtain ⟨hc1, hl1, hcap1, hall1⟩ := step_capacity w e w1 t1 hN hlen hs
        obtain ⟨hc2, hl2, hcap2, hall2⟩ :=
          ih w1 t2 (by rw [hc1]; exact hN) (by rw [hc1]; exact hl1) hr
        rw [hc1] at hc2 hl2 hcap2 hall2
        refine ⟨hc2, hl2, ?_, ?_⟩
        · intro batch hb
          rcases List.mem_append.1 hb with hb | hb
          · exact hcap1 batch hb
          · exact hcap2 batch hb
        · intro tr batch hb
          rcases List.mem_append.1 hb with hb | hb
          · exact hall1 tr batch hb
          · exact hall2 tr batch hb

/-- C7. For a capacity of at least one and every sequence of events (drain,
timer and explicit-flush steps of the worker, sends of producers, flush
requests) run from an empty accumulator: the accumulator holds fewer records
than the capacity after the sequence and after each of its initial segments,
so that it never exceeds the capacity right after an append; every batch handed
over by a capacity-triggered flush has exactly the capacity as its size, and no
batch handed over is larger. -/
theorem capacity_invariant (w0 : Worker) (es : List Event) (wf : Worker) (trace : List Label)
    (hN : 1 ≤ w0.m.bus.cap) (hbuf : w0.buffer = [])
    (hrun : startBatchWorker.run w0 es = some (wf, trace)) :
    wf.buffer.length < w0.m.bus.cap ∧
      (∀ v, (wf.buffer ++ [v]).length ≤ w0.m.bus.cap) ∧
      (∀ batch, Label.flushed Trigger.capacity batch ∈ trace → batch.length = w0.m.bus.cap) ∧
      (∀ tr batch, Label.flushed tr batch ∈ trace → batch.length ≤ w0.m.bus.cap) ∧
      (∀ es1 es2, es = es1 ++ es2 →
        ∃ w1 t1, startBatchWorker.run w0 es1 = some (w1, t1) ∧
          w1.buffer.length < w0.m.bus.cap ∧
          ∀ v, (w1.buffer ++ [v]).length ≤ w0.m.bus.cap) := by
  have hlen : w0.buffer.length < w0.m.bus.cap := by
    rw [hbuf]
    exact hN
  obtain ⟨-, h2, h3, h4⟩ := run_capacity es w0 wf trace hN hlen hrun
  refine ⟨h2, ?_, h3, h4, ?_⟩
  · intro v
    simp only [List.length_append, List.length_singleton]
    omega
  · intro es1 es2 hes
    subst hes
    rw [run_append] at hrun
    cases h1 : startBatchWorker.run w0 es1 with
    | none => simp [h1] at hrun
    | some r =>
      obtain ⟨w1, t1⟩ := r
      obtain ⟨-, hl, -, -⟩ := run_capacity es1 w0 w1 t1 hN hlen h1
      refine ⟨w1, t1, rfl, hl, ?_⟩
      intro v
      simp only [List.length_append, List.length_singleton]
      omega

/-- Witness for C7: with capacity 2 and three updates waiting, three drain
steps leave one record in the accumulator. -/
theorem capacity_invariant_witness :
    startBatchWorker.run smallWorker
        [Event.select Case.bus, Event.select Case.bus, Event.select Case.bus] =
      some
        ({ m :=
            { db := (insertBatch acceptAll
                [Value.update (sampleUpdate 1), Value.update (sampleUpdate 2)]).1
              bus := { cap := 2 } }
           buffer := [Value.update (sampleUpdate 3)] },
          [Label.received (Value.update (sampleUpdate 1)),
            Label.received (Value.update (sampleUpdate 2)),
            Label.flushed Trigger.capacity
              [Value.update (sampleUpdate 1), Value.update (sampleUpdate 2)],
            Label.received (Value.update (sampleUpdate 3))]) ∧
      [Value.update (sampleUpdate 3)].length < smallWorker.m.bus.cap :=
  ⟨rfl,
    (capacity_invariant smallWorker
      [Event.select Case.bus, Event.select Case.bus, Event.select Case.bus] _ _
      (by decide) rfl rfl).1⟩

theorem insertUpdates_loop_foldl (updates : List Update) (acc : List String × List Arg) :
    updates.foldl
        (fun acc update => (acc.1 ++ [insertUpdates.values], acc.2 ++ insertUpdates.row update))
        acc =
      (acc.1 ++ List.replicate updates.length insertUpdates.values,
        acc.2 ++ updates.flatMap insertUpdates.row) := by
  induction updates generalizing acc with
  | nil => simp
  | cons u rest ih =>
    rw [List.foldl_cons, ih]
    simp [List.replicate_succ]

theorem insertUpdates_statement_eq (updates : List Update) :
    (insertUpdates.statement updates).query =
        queryInsertIntoUpdates ++
          String.intercalate "," (List.replicate updates.length insertUpdates.values) ∧
      (insertUpdates.statement updates).args = updates.flatMap insertUpdates.row := by
  simp [insertUpdates.statement, insertUpdates.loop, insertUpdates_loop_foldl]

theorem filterMap_asUpdate_map (us : List Update) :
    (us.map Value.update).filterMap Value.asUpdate = us ∧
      (us.map Value.update).filterMap Value.asRecord = [] := by
  induction us with
  | nil => exact ⟨rfl, rfl⟩
  | cons u rest ih => simp [Value.asUpdate, Value.asRecord, ih.1, ih.2]

/-- Sends that fit into the bus append to its queue and touch nothing else. -/
theorem run_sends (vs : List Value) (w : Worker)
    (hroom : w.m.bus.queue.length + vs.length ≤ w.m.bus.cap) :
    ∃ w1, startBatchWorker.run w (vs.map Event.send) = some (w1, []) ∧
      w1.buffer = w.buffer ∧ w1.m.db = w.m.db ∧ w1.m.bus.cap = w.m.bus.cap ∧
      w1.m.bus.queue = w.m.bus.queue ++ vs ∧ w1.stdlog = w.stdlog := by
  induction vs generalizing w with
  | nil => exact ⟨w, rfl, rfl, rfl, rfl, by simp, rfl⟩
  | cons v rest ih =>
    simp only [List.length_cons] at hroom
    have hlt : w.m.bus.queue.length < w.m.bus.cap := by omega
    obtain ⟨w1, h1, h2, h3, h4, h5, h6⟩ :=
      ih { w with m := { w.m with bus := { w.m.bus with queue := w.m.bus.queue ++ [v] } } }
        (by simp only [List.length_append, List.length_singleton]; omega)
    refine ⟨w1, ?_, h2, h3, h4, ?_, h6⟩
    · rw [List.map_cons, run_cons]
      simp only [startBatchWorker.step, Chan.send, hlt, if_true, Option.bind, h1, Option.map,
        List.append_nil]
    · rw [h5]
      simp

/-- Drain steps that keep the accumulator below the capacity move the head of
the queue to the end of the accumulator and issue no statement. -/
theorem run_drains (vs : List Value) (w : Worker) (rest : List Value)
    (hq : w.m.bus.queue = vs ++ rest)
    (hlen : w.buffer.length + vs.length < w.m.bus.cap) :
    ∃ w1, startBatchWorker.run w (List.replicate vs.length (Event.select Case.bus)) =
        some (w1, vs.map Label.received) ∧
      w1.buffer = w.buffer ++ vs ∧ w1.m.db = w.m.db ∧ w1.m.bus.cap = w.m.bus.cap ∧
      w1.m.bus.queue = rest ∧ w1.stdlog = w.stdlog := by
  induction vs generalizing w with
  | nil => exact ⟨w, rfl, by simp, rfl, rfl, by simpa using hq, rfl⟩
  | cons v vs ih =>
    simp only [List.length_cons] at hlen
    have hq1 : w.m.bus.queue = v :: (vs ++ rest) := by simpa using hq
    have hcap : ¬ (w.m.bus.cap ≤ w.buffer.length + 1) := by omega
    obtain ⟨w1, h1, h2, h3, h4, h5, h6⟩ :=
      ih
        { w with
          m := { w.m with bus := { w.m.bus with queue := vs ++ rest } }
          buffer := w.buffer ++ [v] }
        rfl (by simp only [List.length_append, List.length_singleton]; omega)
    refine ⟨w1, ?_, ?_, h3, h4, h5, h6⟩
    · rw [List.length_cons, List.replicate_succ, run_cons]
      simp only [startBatchWorker.step, select_bus_cons w v (vs ++ rest) hq1, hcap, if_false,
        Option.bind, h1, Option.map, List.map_cons, List.singleton_append]
    · rw [h2]
      simp

/-- Drain steps the last of which fills the accumulator: the whole accumulator
is handed over once, by the capacity-triggered flush of the last step. -/
theorem run_drains_full (vs : List Value) (v : Value) (w : Worker) (rest : List Value)
    (hq : w.m.bus.queue = vs ++ v :: rest)
    (hlen : w.buffer.length + vs.length + 1 = w.m.bus.cap) :
    ∃ w1, startBatchWorker.run w (List.replicate (vs.length + 1) (Event.select Case.bus)) =
        some (w1, vs.map Label.received ++
          [Label.received v, Label.flushed Trigger.capacity (w.buffer ++ vs ++ [v])]) ∧
      w1.buffer = [] ∧ w1.m.db = (insertBatch w.m.db (w.buffer ++ vs ++ [v])).1 ∧
      w1.m.bus.cap = w.m.bus.cap ∧ w1.m.bus.queue = rest := by
  obtain ⟨w1, h1, h2, h3, h4, h5, -⟩ := run_drains vs w (v :: rest) hq (by omega)
  have hcap : w1.m.bus.cap ≤ w1.buffer.length + 1 := by
    rw [h4, h2, List.length_append]
    omega
  refine ⟨startBatchWorker.insertBatch
      { w1 with
        m := { w1.m with bus := { w1.m.bus with queue := rest } }
        buffer := w1.buffer ++ [v] }, ?_, rfl, ?_, h4, rfl⟩
  · rw [List.replicate_succ', run_append, h1]
    simp only [Option.bind, run_cons, startBatchWorker.step, select_bus_cons w1 v rest h5, hcap,
      if_true, startBatchWorker.run, Option.map, List.append_nil]
    rw [h2]
  · show (insertBatch w1.m.db (w1.buffer ++ [v])).1 = _
    rw [h2, h3]

theorem insertBatch_updates_only (db : DB) (us : List Update) (hne : us ≠ []) :
    (insertBatch db (us.map Value.update)).1.history =
      db.history ++ [insertUpdates.statement us] := by
  rw [(insertBatch_history db (us.map Value.update)).2, (filterMap_asUpdate_map us).1,
    (filterMap_asUpdate_map us).2]
  simp [hne]

/-- C8. Capacity `N ≥ 1`, empty bus and accumulator, accepting sink, and `k`
updates sent and then drained. If `1 ≤ k < N`, the drains hand nothing over and
issue no statement, and the next timer step hands over the `k` updates in
submission order and issues exactly one statement, the updates insert built
from them. If `k = N`, the drains themselves end with one capacity-triggered
flush of the `N` updates, issuing exactly that one statement, with no timer
step. The statement has `k` placeholder groups and the rows of the updates in
submission order as arguments. -/
theorem scenario_timer_and_capacity (w0 : Worker) (us : List Update)
    (hN : 1 ≤ w0.m.bus.cap) (hbuf : w0.buffer = []) (hq : w0.m.bus.queue = [])
    (hacc : ∀ history st, w0.m.db.respond history st = none) :
    (1 ≤ us.length → us.length < w0.m.bus.cap →
      ∃ w1 w2,
        startBatchWorker.run w0
            ((us.map Value.update).map Event.send ++
              List.replicate us.length (Event.select Case.bus)) =
          some (w1, (us.map Value.update).map Label.received) ∧
        w1.m.db.history = w0.m.db.history ∧ w1.buffer = us.map Value.update ∧
        startBatchWorker.run w1 [Event.select Case.ticker] =
          some (w2, [Label.flushed Trigger.timer (us.map Value.update)]) ∧
        w2.m.db.history = w0.m.db.history ++ [insertUpdates.statement us] ∧
        w2.buffer = [] ∧ w2.stdlog = w0.stdlog) ∧
    (us.length = w0.m.bus.cap →
      ∃ w1,
        startBatchWorker.run w0
            ((us.map Value.update).map Event.send ++
              List.replicate us.length (Event.select Case.bus)) =
          some (w1, (us.map Value.update).map Label.received ++
            [Label.flushed Trigger.capacity (us.map Value.update)]) ∧
        w1.m.db.history = w0.m.db.history ++ [insertUpdates.statement us] ∧
        w1.buffer = []) ∧
    (insertUpdates.statement us).query =
      queryInsertIntoUpdates ++
        String.intercalate "," (List.replicate us.length insertUpdates.values) ∧
    (insertUpdates.statement us).args = us.flatMap insertUpdates.row := by
  refine ⟨?_, ?_, (insertUpdates_statement_eq us).1, (insertUpdates_statement_eq us).2⟩
  · intro hk1 hk2
    have hne : us ≠ [] := by
      intro h
      rw [h] at hk1
      simp at hk1
    obtain ⟨wS, s1, s2, s3, s4, s5, s6⟩ := run_sends (us.map Value.update) w0
      (by rw [hq]; simp only [List.length_nil, List.length_map]; omega)
    rw [hq, List.nil_append] at s5
    obtain ⟨w1, d1, d2, d3, d4, d5, d6⟩ := run_drains (us.map Value.update) wS []
      (by rw [s5, List.append_nil])
      (by rw [s2, hbuf, s4]; simp only [List.length_nil, List.length_map]; omega)
    rw [List.length_map] at d1
    rw [s2, hbuf, List.nil_append] at d2
    have hrespond : ∀ history st, w1.m.db.respond history st = none := by
      rw [d3, s3]
      exact hacc
    have herr : (insertBatch w1.m.db w1.buffer).2 = none := by
      rw [insertBatch_error]
      simp [hrespond]
    refine ⟨w1, startBatchWorker.insertBatch w1, ?_, ?_, d2, ?_, ?_, rfl, ?_⟩
    · rw [run_append, s1]
      simp only [Option.bind, d1, Option.map, List.nil_append]
    · rw [d3, s3]
    · rw [run_cons]
      simp only [startBatchWorker.step, select_ticker, Option.bind, startBatchWorker.run,
        Option.map, d2, List.append_nil]
    · show (insertBatch w1.m.db w1.buffer).1.history = _
      rw [d2, insertBatch_updates_only w1.m.db us hne, d3, s3]
    · simp only [startBatchWorker.insertBatch, herr]
      rw [d6, s6]
  · intro hk
    have hne : us ≠ [] := by
      intro h
      rw [h] at hk
      simp only [List.length_nil] at hk
      omega
    obtain ⟨wS, s1, s2, s3, s4, s5, s6⟩ := run_sends (us.map Value.update) w0
      (by rw [hq]; simp only [List.length_nil, List.length_map]; omega)
    rw [hq, List.nil_append] at s5
    have hsplit : us.map Value.update =
        (us.dropLast).map Value.update ++ [Value.update (us.getLast hne)] := by
      conv_lhs => rw [← List.dropLast_append_getLast hne]
      simp
    have hlen1 : us.dropLast.length + 1 = us.length := by
      rw [List.length_dropLast]
      have : 0 < us.length := List.length_pos.2 hne
      omega
    obtain ⟨w1, d1, d2, d3, d4, -⟩ :=
      run_drains_full (us.dropLast.map Value.update) (Value.update (us.getLast hne)) wS []
        (by rw [s5, hsplit])
        (by rw [s2, hbuf, s4]; simp only [List.length_nil, List.length_map]; omega)
    rw [List.length_map, hlen1] at d1
    rw [s2, hbuf, List.nil_append, ← hsplit] at d1 d3
    refine ⟨w1, ?_, ?_, d2⟩
    · rw [run_append, s1]
      simp only [Option.bind, d1, Option.map, List.nil_append]
      rw [hsplit]
      simp
    · rw [d3, insertBatch_updates_only wS.m.db us hne, s3]

theorem sampleUpdates_length (k : Nat) : (sampleUpdates k).length = k := by
  simp [sampleUpdates]

/-- Witness for C8: capacity 1000 with 999 updates (one statement, at the timer
step) and with 1000 updates (one statement, at the last drain). -/
theorem scenario_timer_and_capacity_witness :
    (∃ w1 w2,
        startBatchWorker.run thousandWorker
            (((sampleUpdates 999).map Value.update).map Event.send ++
              List.replicate (sampleUpdates 999).length (Event.select Case.bus)) =
          some (w1, ((sampleUpdates 999).map Value.update).map Label.received) ∧
        w1.m.db.history = thousandWorker.m.db.history ∧
        w1.buffer = (sampleUpdates 999).map Value.update ∧
        startBatchWorker.run w1 [Event.select Case.ticker] =
          some (w2, [Label.flushed Trigger.timer ((sampleUpdates 999).map Value.update)]) ∧
        w2.m.db.history =
          thousandWorker.m.db.history ++ [insertUpdates.statement (sampleUpdates 999)] ∧
        w2.buffer = [] ∧ w2.stdlog = thousandWorker.stdlog) ∧
      ∃ w1,
        startBatchWorker.run thousandWorker
            (((sampleUpdates 1000).map Value.update).map Event.send ++
              List.replicate (sampleUpdates 1000).length (Event.select Case.bus)) =
          some (w1, ((sampleUpdates 1000).map Value.update).map Label.received ++
            [Label.flushed Trigger.capacity ((sampleUpdates 1000).map Value.update)]) ∧
        w1.m.db.history =
          thousandWorker.m.db.history ++ [insertUpdates.statement (sampleUpdates 1000)] ∧
        w1.buffer = [] :=
  have hcap : thousandWorker.m.bus.cap = 1000 := rfl
  ⟨(scenario_timer_and_capacity thousandWorker (sampleUpdates 999)
      (by rw [hcap]; omega) rfl rfl (fun _ _ => rfl)).1
      (by rw [sampleUpdates_length]; omega)
      (by rw [sampleUpdates_length, hcap]; omega),
    (scenario_timer_and_capacity thousandWorker (sampleUpdates 1000)
      (by rw [hcap]; omega) rfl rfl (fun _ _ => rfl)).2.1
      (by rw [sampleUpdates_length, hcap])⟩

/-! ## Media, reference and inline resolution -/

theorem build_ResultID (now : Time) (c : tele.Context) (utype : String) (sender : tele.User)
    (msg : Option tele.Message) :
    (newUpdate.build now c utype sender msg).ResultID =
      match c.InlineResult with
      | some ir => ir.ResultID
      | none => "" := by
  unfold newUpdate.build
  cases c.Chat <;> cases msg <;> cases c.Callback <;> cases c.InlineResult <;>
    simp <;> split_ifs <;> simp

theorem build_IsInline (now : Time) (c : tele.Context) (utype : String) (sender : tele.User)
    (msg : Option tele.Message) :
    (newUpdate.build now c utype sender msg).IsInline =
      match c.InlineResult with
      | some _ => true
      | none =>
        match c.Callback with
        | some clb => clb.IsInline
        | none => false := by
  unfold newUpdate.build
  cases c.Chat <;> cases msg <;> cases c.Callback <;> cases c.InlineResult <;>
    simp <;> split_ifs <;> simp_all

theorem build_MessageID (now : Time) (c : tele.Context) (utype : String) (sender : tele.User)
    (msg : Option tele.Message) :
    (newUpdate.build now c utype sender msg).MessageID =
      match c.InlineResult with
      | some ir => ir.MessageID
      | none =>
        match c.Callback with
        | some clb =>
          if clb.IsInline then clb.MessageID
          else
            match msg with
            | some msg => Itoa msg.ID
            | none => ""
        | none =>
          match msg with
          | some msg => Itoa msg.ID
          | none => "" := by
  unfold newUpdate.build
  cases c.Chat <;> cases msg <;> cases c.Callback <;> cases c.InlineResult <;>
    simp <;> split_ifs <;> simp_all

theorem isSome_false_iff {α : Type} (o : Option α) : o.isSome = false ↔ o = none := by
  cases o <;> simp

theorem firstPresent_eq_empty_iff (l : List (Bool × String)) (htags : ∀ p ∈ l, p.2 ≠ "") :
    firstPresent l = "" ↔ ∀ p ∈ l, p.1 = false := by
  induction l with
  | nil => simp [firstPresent]
  | cons p rest ih =>
    obtain ⟨present, tag⟩ := p
    have htag : tag ≠ "" := htags (present, tag) (List.mem_cons_self _ _)
    have ih1 := ih fun q hq => htags q (List.mem_cons_of_mem _ hq)
    cases present
    · simp only [firstPresent, Bool.false_eq_true, if_false, ih1, List.forall_mem_cons, true_and]
    · simp [firstPresent, htag]

theorem firstPresent_mem (l : List (Bool × String)) :
    firstPresent l = "" ∨ firstPresent l ∈ l.map Prod.snd := by
  induction l with
  | nil => exact Or.inl rfl
  | cons p rest ih =>
    obtain ⟨present, tag⟩ := p
    cases present
    · rcases ih with h | h
      · exact Or.inl (by simpa [firstPresent] using h)
      · exact Or.inr (by simpa [firstPresent] using Or.inr h)
    · exact Or.inr (by simp [firstPresent])

/-- C14. `updateMedia` is the tag of the first present attachment in the order
animation, audio, document, photo, sticker, video, video_note, voice, contact,
dice, poll, venue, location; it is empty exactly when none of the thirteen is
present, and it is always one of the thirteen tags or empty. -/
theorem updateMedia_first_present (msg : tele.Message) :
    updateMedia msg =
      firstPresent
        [(msg.Animation.isSome, "animation"), (msg.Audio.isSome, "audio"),
          (msg.Document.isSome, "document"), (msg.Photo.isSome, "photo"),
          (msg.Sticker.isSome, "sticker"), (msg.Video.isSome, "video"),
          (msg.VideoNote.isSome, "video_note"), (msg.Voice.isSome, "voice"),
          (msg.Contact.isSome, "contact"), (msg.Dice.isSome, "dice"),
          (msg.Poll.isSome, "poll"), (msg.Venue.isSome, "venue"),
          (msg.Location.isSome, "location")] ∧
    (updateMedia msg = "" ↔
      (msg.Animation = none ∧ msg.Audio = none ∧ msg.Document = none ∧ msg.Photo = none ∧
        msg.Sticker = none ∧ msg.Video = none ∧ msg.VideoNote = none ∧ msg.Voice = none ∧
        msg.Contact = none ∧ msg.Dice = none ∧ msg.Poll = none ∧ msg.Venue = none ∧
        msg.Location = none)) ∧
    updateMedia msg ∈
      ["animation", "audio", "document", "photo", "sticker", "video", "video_note", "voice",
        "contact", "dice", "poll", "venue", "location", ""] := by
  have h1 : updateMedia msg =
      firstPresent
        [(msg.Animation.isSome, "animation"), (msg.Audio.isSome, "audio"),
          (msg.Document.isSome, "document"), (msg.Photo.isSome, "photo"),
          (msg.Sticker.isSome, "sticker"), (msg.Video.isSome, "video"),
          (msg.VideoNote.isSome, "video_note"), (msg.Voice.isSome, "voice"),
          (msg.Contact.isSome, "contact"), (msg.Dice.isSome, "dice"),
          (msg.Poll.isSome, "poll"), (msg.Venue.isSome, "venue"),
          (msg.Location.isSome, "location")] := by
    simp only [updateMedia, firstPresent]
  refine ⟨h1, ?_, ?_⟩
  · rw [h1, firstPresent_eq_empty_iff _ (by
      intro p hp
      simp only [List.mem_cons, List.mem_singleton, List.not_mem_nil, or_false] at hp
      rcases hp with rfl | rfl | rfl | rfl | rfl | rfl | rfl | rfl | rfl | rfl | rfl | rfl | rfl <;>
        simp)]
    simp only [List.forall_mem_cons, List.not_mem_nil, false_implies, implies_true, and_true,
      isSome_false_iff]
  · rcases firstPresent_mem
      [(msg.Animation.isSome, "animation"), (msg.Audio.isSome, "audio"),
        (msg.Document.isSome, "document"), (msg.Photo.isSome, "photo"),
        (msg.Sticker.isSome, "sticker"), (msg.Video.isSome, "video"),
        (msg.VideoNote.isSome, "video_note"), (msg.Voice.isSome, "voice"),
        (msg.Contact.isSome, "contact"), (msg.Dice.isSome, "dice"),
        (msg.Poll.isSome, "poll"), (msg.Venue.isSome, "venue"),
        (msg.Location.isSome, "location")] with h | h
    · rw [h1, h]
      simp
    · rw [h1]
      simp only [List.map_cons, List.map_nil] at h
      simp only [List.mem_cons, List.mem_singleton, List.not_mem_nil, or_false] at h ⊢
      tauto

/-- C15: the code at an input where the claim fails. A photo message that also
carries a chosen inline result is accepted with type "message", yet its
`ResultID` is the one of the inline result. -/
theorem resultID_on_message :
    (newUpdate t0 resultOnMessageEvent).2 = true ∧
      (newUpdate t0 resultOnMessageEvent).1.ResultID = "r1" ∧
      (newUpdate t0 resultOnMessageEvent).1.ResultID ≠ "" ∧
      (newUpdate t0 resultOnMessageEvent).1.Typ = "message" ∧
      (newUpdate t0 resultOnMessageEvent).1.Typ ≠ "inline_result" := by
  decide

/-- C16: the code at an input where the claim fails. A callback from a button
under a forwarded photo message that is a reply is accepted with type
"callback", yet `Media`, `IsForwarded` and `IsReply` are filled from the
message. -/
theorem message_fields_on_callback :
    (newUpdate t0 callbackOnPhotoEvent).2 = true ∧
      (newUpdate t0 callbackOnPhotoEvent).1.Typ = "callback" ∧
      (newUpdate t0 callbackOnPhotoEvent).1.Typ ≠ "message" ∧
      (newUpdate t0 callbackOnPhotoEvent).1.Media = "photo" ∧
      (newUpdate t0 callbackOnPhotoEvent).1.IsForwarded = true ∧
      (newUpdate t0 callbackOnPhotoEvent).1.IsReply = true := by
  decide

/-- C17. For an accepted event, `MessageID` is that of the inline result when
there is one; otherwise that of the callback when there is a callback and it is
inline; otherwise the decimal rendering of the identifier of the attached
message when there is one; otherwise empty. `IsInline` holds exactly when there
is an inline result, or a callback that is inline. -/
theorem newUpdate_MessageID_IsInline (now : Time) (c : tele.Context)
    (h : (newUpdate now c).2 = true) :
    (∀ ir, c.InlineResult = some ir → (newUpdate now c).1.MessageID = ir.MessageID) ∧
    (c.InlineResult = none → ∀ clb, c.Callback = some clb → clb.IsInline = true →
      (newUpdate now c).1.MessageID = clb.MessageID) ∧
    (c.InlineResult = none →
      (c.Callback = none ∨ ∃ clb, c.Callback = some clb ∧ clb.IsInline = false) →
      (∀ msg, c.Message = some msg → (newUpdate now c).1.MessageID = Itoa msg.ID) ∧
        (c.Message = none → (newUpdate now c).1.MessageID = "")) ∧
    ((newUpdate now c).1.IsInline = true ↔
      (c.InlineResult ≠ none ∨ ∃ clb, c.Callback = some clb ∧ clb.IsInline = true)) ∧
    Itoa 42 = "42" ∧ Itoa (-7) = "-7" := by
  obtain ⟨sender, -, hb⟩ := newUpdate_ok_build now c h
  rw [hb, build_MessageID, build_IsInline]
  refine ⟨?_, ?_, ?_, ?_, by decide, by decide⟩
  · intro ir hir
    simp only [hir]
  · intro hir clb hclb hin
    simp only [hir, hclb, hin, if_true]
  · intro hir hclb
    rcases hclb with hclb | ⟨clb, hclb, hin⟩
    · constructor
      · intro msg hm
        simp only [hir, hclb, hm]
      · intro hm
        simp only [hir, hclb, hm]
    · constructor
      · intro msg hm
        simp [hir, hclb, hm, hin]
      · intro hm
        simp [hir, hclb, hm, hin]
  · cases hir : c.InlineResult with
    | some ir => simp
    | none =>
      cases hclb : c.Callback with
      | none => simp
      | some clb => simp

/-- Witness for C17: a chosen inline result gives its message identifier and an
inline update. -/
theorem newUpdate_MessageID_IsInline_witness :
    (newUpdate t0 inlineResultEvent).1.MessageID = "im1" ∧
      (newUpdate t0 inlineResultEvent).1.IsInline = true :=
  have h := newUpdate_MessageID_IsInline t0 inlineResultEvent (by decide)
  ⟨h.1 { MessageID := "im1", ResultID := "r1" } rfl,
    h.2.2.2.1.2 (Or.inl (by decide))⟩

/-! ## Conservation of records between the bus and the writer -/

theorem receivedValues_append (t1 t2 : List Label) :
    receivedValues (t1 ++ t2) = receivedValues t1 ++ receivedValues t2 := by
  induction t1 with
  | nil => rfl
  | cons l rest ih => cases l <;> simp [receivedValues, ih]

theorem flushedValues_append (t1 t2 : List Label) :
    flushedValues (t1 ++ t2) = flushedValues t1 ++ flushedValues t2 := by
  induction t1 with
  | nil => rfl
  | cons l rest ih => cases l <;> simp [flushedValues, ih]

/-- One event keeps the balance: what was handed over plus what is held equals
what was held plus what was received. -/
theorem step_conservation (w : Worker) (e : Event) (w1 : Worker) (t : List Label)
    (hstep : startBatchWorker.step w e = some (w1, t)) :
    flushedValues t ++ w1.buffer = w.buffer ++ receivedValues t := by
  cases e with
  | select c =>
    cases c with
    | bus =>
      cases hq : w.m.bus.queue with
      | nil => simp [startBatchWorker.step, select_bus_nil w hq] at hstep
      | cons v rest =>
        simp only [startBatchWorker.step, select_bus_cons w v rest hq] at hstep
        split_ifs at hstep with hcap
        · simp only [Option.some.injEq, Prod.mk.injEq] at hstep
          obtain ⟨rfl, rfl⟩ := hstep
          simp [flushedValues, receivedValues, startBatchWorker.insertBatch]
        · simp only [Option.some.injEq, Prod.mk.injEq] at hstep
          obtain ⟨rfl, rfl⟩ := hstep
          simp [flushedValues, receivedValues]
    | ticker =>
      simp only [startBatchWorker.step, select_ticker, Option.some.injEq, Prod.mk.injEq] at hstep
      obtain ⟨rfl, rfl⟩ := hstep
      simp [flushedValues, receivedValues, startBatchWorker.insertBatch]
    | flush =>
      cases hf : w.m.flush with
      | none => simp [startBatchWorker.step, startBatchWorker.select, hf] at hstep
      | some j =>
        cases j with
        | zero => simp [startBatchWorker.step, startBatchWorker.select, hf] at hstep
        | succ k =>
          cases hw : w.m.wg with
          | none => simp [startBatchWorker.step, select_flush_succ w k hf, hw] at hstep
          | some n =>
            by_cases hn : n - 1 < 0
            · simp [startBatchWorker.step, select_flush_succ w k hf, hw, hn] at hstep
            · simp only [startBatchWorker.step, select_flush_succ w k hf, hw, hn, if_false,
                Option.some.injEq, Prod.mk.injEq] at hstep
              obtain ⟨rfl, rfl⟩ := hstep
              simp [flushedValues, receivedValues]
    | halt =>
      exfalso
      simp only [startBatchWorker.step] at hstep
      cases hs : startBatchWorker.select w Case.halt with
      | next w2 t2 => exact select_halt_result w w2 t2 hs
      | notReady => simp [hs] at hstep
      | fault w2 t2 => simp [hs] at hstep
      | stuck w2 t2 => simp [hs] at hstep
  | send v =>
    simp only [startBatchWorker.step, Chan.send] at hstep
    split_ifs at hstep with hroom
    simp only [Option.some.injEq, Prod.mk.injEq] at hstep
    obtain ⟨rfl, rfl⟩ := hstep
    simp [flushedValues, receivedValues]
  | flushCall =>
    simp only [startBatchWorker.step] at hstep
    cases hw : w.m.wg with
    | none => simp [hw] at hstep
    | some n =>
      simp only [hw, Option.some.injEq, Prod.mk.injEq] at hstep
      obtain ⟨rfl, rfl⟩ := hstep
      simp [flushedValues, receivedValues]

theorem run_conservation (es : List Event) (w : Worker) (wf : Worker) (trace : List Label)
    (hrun : startBatchWorker.run w es = some (wf, trace)) :
    flushedValues trace ++ wf.buffer = w.buffer ++ receivedValues trace := by
  induction es generalizing w trace with
  | nil =>
    simp only [startBatchWorker.run, Option.some.injEq, Prod.mk.injEq] at hrun
    obtain ⟨rfl, rfl⟩ := hrun
    simp [flushedValues, receivedValues]
  | cons e es ih =>
    rw [run_cons] at hrun
    cases hs : startBatchWorker.step w e with
    | none => simp [hs] at hrun
    | some r =>
      obtain ⟨w1, t1⟩ := r
      cases hr : startBatchWorker.run w1 es with
      | none => simp [hs, hr] at hrun
      | some r2 =>
        obtain ⟨w2, t2⟩ := r2
        simp only [hs, hr, Option.bind, Option.map, Option.some.injEq, Prod.mk.injEq] at hrun
        obtain ⟨rfl, rfl⟩ := hrun
        have h1 := step_conservation w e w1 t1 hs
        have h2 := ih w1 t2 hr
        rw [flushedValues_append, receivedValues_append, List.append_assoc, h2,
          ← List.append_assoc, h1, List.append_assoc]

theorem writerCalls_append (t1 t2 : List Label) :
    writerCalls (t1 ++ t2) = writerCalls t1 ++ writerCalls t2 := by
  induction t1 with
  | nil => rfl
  | cons l rest ih => cases l <;> simp [writerCalls, ih]

theorem flushedValues_eq_flatten (t : List Label) :
    flushedValues t = (writerCalls t).flatten := by
  induction t with
  | nil => rfl
  | cons l rest ih => cases l <;> simp [flushedValues, writerCalls, ih]

theorem sentValues_cons (e : Event) (es : List Event) :
    sentValues (e :: es) = sentValues [e] ++ sentValues es := by
  cases e <;> simp [sentValues]

theorem handOver_append (db : DB) (a b : List (List Value)) :
    handOver db (a ++ b) = handOver (handOver db a) b := by
  simp [handOver, List.foldl_append]

/-- With a sink that accepts every statement, handing batches over issues, batch
after batch, the statements of each batch and nothing else. -/
theorem handOver_history (batches : List (List Value)) (db : DB)
    (hacc : ∀ history st, db.respond history st = none) :
    (handOver db batches).history = db.history ++ batches.flatMap statementsOf := by
  induction batches generalizing db with
  | nil => simp [handOver]
  | cons batch rest ih =>
    have hh := insertBatch_history db batch
    have hacc1 : ∀ history st, (insertBatch db batch).1.respond history st = none := by
      rw [hh.1]
      exact hacc
    have h1 : handOver db (batch :: rest) = handOver (insertBatch db batch).1 rest := rfl
    rw [h1, ih (insertBatch db batch).1 hacc1, hh.2, List.flatMap_cons]
    simp only [hacc, Option.isSome_none, Bool.false_eq_true, and_false, if_false, statementsOf,
      List.append_assoc]

/-- One event: the sink afterwards is the sink before with `insertBatch` called
on the batches the event handed over, and what the event received left the
queue of the bus, to which what it sent was added. -/
theorem step_sink (w : Worker) (e : Event) (w1 : Worker) (t : List Label)
    (hstep : startBatchWorker.step w e = some (w1, t)) :
    w1.m.db = handOver w.m.db (writerCalls t) ∧
      w.m.bus.queue ++ sentValues [e] = receivedValues t ++ w1.m.bus.queue := by
  cases e with
  | select c =>
    cases c with
    | bus =>
      cases hq : w.m.bus.queue with
      | nil => simp [startBatchWorker.step, select_bus_nil w hq] at hstep
      | cons v rest =>
        simp only [startBatchWorker.step, select_bus_cons w v rest hq] at hstep
        split_ifs at hstep with hcap
        · simp only [Option.some.injEq, Prod.mk.injEq] at hstep
          obtain ⟨rfl, rfl⟩ := hstep
          exact ⟨rfl, by simp [sentValues, receivedValues, startBatchWorker.insertBatch]⟩
        · simp only [Option.some.injEq, Prod.mk.injEq] at hstep
          obtain ⟨rfl, rfl⟩ := hstep
          exact ⟨rfl, by simp [sentValues, receivedValues]⟩
    | ticker =>
      simp only [startBatchWorker.step, select_ticker, Option.some.injEq, Prod.mk.injEq] at hstep
      obtain ⟨rfl, rfl⟩ := hstep
      exact ⟨rfl, by simp [sentValues, receivedValues, startBatchWorker.insertBatch]⟩
    | flush =>
      cases hf : w.m.flush with
      | none => simp [startBatchWorker.step, startBatchWorker.select, hf] at hstep
      | some j =>
        cases j with
        | zero => simp [startBatchWorker.step, startBatchWorker.select, hf] at hstep
        | succ k =>
          cases hw : w.m.wg with
          | none => simp [startBatchWorker.step, select_flush_succ w k hf, hw] at hstep
          | some n =>
            by_cases hn : n - 1 < 0
            · simp [startBatchWorker.step, select_flush_succ w k hf, hw, hn] at hstep
            · simp only [startBatchWorker.step, select_flush_succ w k hf, hw, hn, if_false,
                Option.some.injEq, Prod.mk.injEq] at hstep
              obtain ⟨rfl, rfl⟩ := hstep
              exact ⟨rfl, by simp [sentValues, receivedValues]⟩
    | halt =>
      exfalso
      simp only [startBatchWorker.step] at hstep
      cases hs : startBatchWorker.select w Case.halt with
      | next w2 t2 => exact select_halt_result w w2 t2 hs
      | notReady => simp [hs] at hstep
      | fault w2 t2 => simp [hs] at hstep
      | stuck w2 t2 => simp [hs] at hstep
  | send v =>
    simp only [startBatchWorker.step, Chan.send] at hstep
    split_ifs at hstep with hroom
    simp only [Option.some.injEq, Prod.mk.injEq] at hstep
    obtain ⟨rfl, rfl⟩ := hstep
    exact ⟨rfl, by simp [sentValues, receivedValues]⟩
  | flushCall =>
    simp only [startBatchWorker.step] at hstep
    cases hw : w.m.wg with
    | none => simp [hw] at hstep
    | some n =>
      simp only [hw, Option.some.injEq, Prod.mk.injEq] at hstep
      obtain ⟨rfl, rfl⟩ := hstep
      exact ⟨rfl, by simp [sentValues, receivedValues]⟩

theorem run_sink (es : List Event) (w : Worker) (wf : Worker) (trace : List Label)
    (hrun : startBatchWorker.run w es = some (wf, trace)) :
    wf.m.db = handOver w.m.db (writerCalls trace) ∧
      w.m.bus.queue ++ sentValues es = receivedValues trace ++ wf.m.bus.queue := by
  induction es generalizing w trace with
  | nil =>
    simp only [startBatchWorker.run, Option.some.injEq, Prod.mk.injEq] at hrun
    obtain ⟨rfl, rfl⟩ := hrun
    exact ⟨rfl, by simp [sentValues, receivedValues]⟩
  | cons e es ih =>
    rw [run_cons] at hrun
    cases hs : startBatchWorker.step w e with
    | none => simp [hs] at hrun
    | some r =>
      obtain ⟨w1, t1⟩ := r
      cases hr : startBatchWorker.run w1 es with
      | none => simp [hs, hr] at hrun
      | some r2 =>
        obtain ⟨w2, t2⟩ := r2
        simp only [hs, hr, Option.bind, Option.map, Option.some.injEq, Prod.mk.injEq] at hrun
        obtain ⟨rfl, rfl⟩ := hrun
        obtain ⟨hd1, hq1⟩ := step_sink w e w1 t1 hs
        obtain ⟨hd2, hq2⟩ := ih w1 t2 hr
        constructor
        · rw [writerCalls_append, handOver_append, ← hd1, hd2]
        · rw [sentValues_cons, receivedValues_append, ← List.append_assoc, hq1,
            List.append_assoc, hq2, List.append_assoc]

/-- C19. For a capacity of at least one and every sequence of events run from
an empty accumulator: the records received by the worker are exactly those
that left the queue of the bus, in order; the batches handed to `insertBatch`
so far, concatenated in flush order and followed by the current accumulator,
are the records received so far, in order (also after each initial segment);
the sink is the initial sink with `insertBatch` called once on each of these
batches, in flush order, and on nothing else; and when the sink accepts every
statement it has received exactly the statements of these batches, in order. -/
theorem no_loss_no_duplication (w0 : Worker) (es : List Event) (wf : Worker)
    (trace : List Label) (hN : 1 ≤ w0.m.bus.cap) (hbuf : w0.buffer = [])
    (hrun : startBatchWorker.run w0 es = some (wf, trace)) :
    w0.m.bus.queue ++ sentValues es = receivedValues trace ++ wf.m.bus.queue ∧
      (writerCalls trace).flatten ++ wf.buffer = receivedValues trace ∧
      flushedValues trace = (writerCalls trace).flatten ∧
      wf.m.db = handOver w0.m.db (writerCalls trace) ∧
      ((∀ history st, w0.m.db.respond history st = none) →
        wf.m.db.history = w0.m.db.history ++ (writerCalls trace).flatMap statementsOf) ∧
      (∀ es1 es2, es = es1 ++ es2 →
        ∃ w1 t1, startBatchWorker.run w0 es1 = some (w1, t1) ∧
          (writerCalls t1).flatten ++ w1.buffer = receivedValues t1 ∧
          w1.m.db = handOver w0.m.db (writerCalls t1)) ∧
      wf.buffer.length < w0.m.bus.cap := by
  have hlen : w0.buffer.length < w0.m.bus.cap := by
    rw [hbuf]
    exact hN
  have hsink := run_sink es w0 wf trace hrun
  refine ⟨hsink.2, ?_, flushedValues_eq_flatten trace, hsink.1, ?_, ?_,
    (run_capacity es w0 wf trace hN hlen hrun).2.1⟩
  · have h := run_conservation es w0 wf trace hrun
    rw [hbuf, List.nil_append, flushedValues_eq_flatten] at h
    exact h
  · intro hacc
    rw [hsink.1, handOver_history _ _ hacc]
  · intro es1 es2 hes
    subst hes
    rw [run_append] at hrun
    cases h1 : startBatchWorker.run w0 es1 with
    | none => simp [h1] at hrun
    | some r =>
      obtain ⟨w1, t1⟩ := r
      refine ⟨w1, t1, rfl, ?_, (run_sink es1 w0 w1 t1 h1).1⟩
      have h := run_conservation es1 w0 w1 t1 h1
      rw [hbuf, List.nil_append, flushedValues_eq_flatten] at h
      exact h

/-- Witness for C19: capacity 2, an accepting sink and three updates waiting;
after three drain steps the sink has received the one statement of the batch
of the first two updates, and that batch followed by the accumulator holding
the third is what was received. -/
theorem no_loss_no_duplication_witness :
    (writerCalls
          [Label.received (Value.update (sampleUpdate 1)),
            Label.received (Value.update (sampleUpdate 2)),
            Label.flushed Trigger.capacity
              [Value.update (sampleUpdate 1), Value.update (sampleUpdate 2)],
            Label.received (Value.update (sampleUpdate 3))]).flatten ++
        [Value.update (sampleUpdate 3)] =
      receivedValues
        [Label.received (Value.update (sampleUpdate 1)),
          Label.received (Value.update (sampleUpdate 2)),
          Label.flushed Trigger.capacity
            [Value.update (sampleUpdate 1), Value.update (sampleUpdate 2)],
          Label.received (Value.update (sampleUpdate 3))] ∧
      (insertBatch acceptAll
          [Value.update (sampleUpdate 1), Value.update (sampleUpdate 2)]).1.history =
        smallWorker.m.db.history ++
          (writerCalls
            [Label.received (Value.update (sampleUpdate 1)),
              Label.received (Value.update (sampleUpdate 2)),
              Label.flushed Trigger.capacity
                [Value.update (sampleUpdate 1), Value.update (sampleUpdate 2)],
              Label.received (Value.update (sampleUpdate 3))]).flatMap statementsOf :=
  have h := no_loss_no_duplication smallWorker
    [Event.select Case.bus, Event.select Case.bus, Event.select Case.bus]
    { m :=
        { db := (insertBatch acceptAll
            [Value.update (sampleUpdate 1), Value.update (sampleUpdate 2)]).1
          bus := { cap := 2 } }
      buffer := [Value.update (sampleUpdate 3)] }
    [Label.received (Value.update (sampleUpdate 1)),
      Label.received (Value.update (sampleUpdate 2)),
      Label.flushed Trigger.capacity
        [Value.update (sampleUpdate 1), Value.update (sampleUpdate 2)],
      Label.received (Value.update (sampleUpdate 3))]
    (by decide) rfl rfl
  ⟨h.2.1, h.2.2.2.2.1 (fun _ _ => rfl)⟩

/-! ## Bulk statements -/

theorem placeholders_append (a b : String) :
    placeholders (a ++ b) = placeholders a + placeholders b := by
  simp [placeholders, List.count_append]

theorem placeholders_intercalate_go (v : String) (n : Nat) (acc : String) :
    placeholders (String.intercalate.go acc "," (List.replicate n v)) =
      placeholders acc + n * placeholders v := by
  induction n generalizing acc with
  | zero => simp [String.intercalate.go]
  | succ n ih =>
    rw [List.replicate_succ, String.intercalate.go, ih, placeholders_append,
      placeholders_append]
    have hc : placeholders "," = 0 := by decide
    rw [hc]
    ring

theorem placeholders_intercalate (v : String) (n : Nat) :
    placeholders (String.intercalate "," (List.replicate n v)) = n * placeholders v := by
  cases n with
  | zero => simp [String.intercalate, placeholders]
  | succ n =>
    rw [List.replicate_succ, String.intercalate, placeholders_intercalate_go]
    ring

theorem insertRecords_loop_foldl (records : List Record) (acc : List String × List Arg) :
    records.foldl
        (fun acc record => (acc.1 ++ [insertRecords.values], acc.2 ++ insertRecords.row record))
        acc =
      (acc.1 ++ List.replicate records.length insertRecords.values,
        acc.2 ++ records.flatMap insertRecords.row) := by
  induction records generalizing acc with
  | nil => simp
  | cons r rest ih =>
    rw [List.foldl_cons, ih]
    simp [List.replicate_succ]

theorem insertRecords_statement_eq (records : List Record) :
    (insertRecords.statement records).query =
        queryInsertIntoLog ++
          String.intercalate "," (List.replicate records.length insertRecords.values) ∧
      (insertRecords.statement records).args = records.flatMap insertRecords.row := by
  simp [insertRecords.statement, insertRecords.loop, insertRecords_loop_foldl]

/-- In a concatenation of rows of one width, the `i`-th block is the row of the
`i`-th element. -/
theorem flatMap_block {α β : Type} (f : α → List β) (k : Nat) (hk : ∀ x, (f x).length = k)
    (l : List α) (i : Nat) (x : α) (hx : l[i]? = some x) :
    ((l.flatMap f).drop (k * i)).take k = f x := by
  induction l generalizing i with
  | nil => simp at hx
  | cons a rest ih =>
    cases i with
    | zero =>
      simp only [List.getElem?_cons_zero, Option.some.injEq] at hx
      subst hx
      simp only [Nat.mul_zero, List.drop_zero, List.flatMap_cons]
      rw [List.take_append_of_le_length (by rw [hk]), List.take_of_length_le (by rw [hk])]
    | succ j =>
      simp only [List.getElem?_cons_succ] at hx
      have h1 : k * (j + 1) = (f a).length + k * j := by
        rw [hk]
        ring
      rw [List.flatMap_cons, h1, List.drop_append]
      exact ih j hx

theorem flatMap_length_const {α β : Type} (f : α → List β) (k : Nat)
    (hk : ∀ x, (f x).length = k) (l : List α) : (l.flatMap f).length = k * l.length := by
  induction l with
  | nil => simp
  | cons a rest ih =>
    rw [List.flatMap_cons, List.length_append, ih, hk, List.length_cons]
    ring

theorem flatMap_row_updates_Date (d : Time) (updates : List Update) :
    (List.map (fun u => { u with Date := d }) updates).flatMap insertUpdates.row =
      updates.flatMap insertUpdates.row := by
  induction updates with
  | nil => rfl
  | cons a rest ih =>
    rw [List.map_cons, List.flatMap_cons, List.flatMap_cons, ih]
    rfl

theorem flatMap_row_records_Date (d : Time) (records : List Record) :
    (List.map (fun r => { r with Date := d }) records).flatMap insertRecords.row =
      records.flatMap insertRecords.row := by
  induction records with
  | nil => rfl
  | cons a rest ih =>
    rw [List.map_cons, List.flatMap_cons, List.flatMap_cons, ih]
    rfl

/-- C18. `insertUpdates` executes one statement: the text is the fixed
`INSERT INTO updates` prefix followed by one 14-placeholder group per update,
joined by ","; there are `14 * n` arguments and the `i`-th block of 14 is, in
column order, the date of `Time`, `Time`, `ID`, `Type`, `UserID`, `ChatID`,
`MessageID`, `Text`, `Media`, `IsInline`, `IsForwarded`, `IsReply`,
`WasEdited`, `ResultID` of the `i`-th update; the `Date` field is not read.
`insertRecords` does the same with 6-placeholder groups and `6 * n` arguments
(date of `Time`, `Time`, `UpdateID`, `Level`, `Message`, `Payload`). In both
the number of `?` in the text is the number of arguments. -/
theorem bulk_statement_shape (db : DB) (updates : List Update) (records : List Record) :
    ((insertUpdates db updates).1.history = db.history ++ [insertUpdates.statement updates] ∧
      (insertUpdates.statement updates).query =
        queryInsertIntoUpdates ++
          String.intercalate ","
            (List.replicate updates.length "(?, ?, ?, ?, ?, ?, ?, ?, ?, ?, ?, ?, ?, ?)") ∧
      (insertUpdates.statement updates).args.length = 14 * updates.length ∧
      (∀ i u, updates[i]? = some u →
        ((insertUpdates.statement updates).args.drop (14 * i)).take 14 =
          [Arg.date u.Time, Arg.time u.Time, Arg.uint u.ID, Arg.string u.Typ,
            Arg.int64 u.UserID, Arg.int64 u.ChatID, Arg.string u.MessageID, Arg.string u.Text,
            Arg.string u.Media, Arg.bool u.IsInline, Arg.bool u.IsForwarded,
            Arg.bool u.IsReply, Arg.bool u.WasEdited, Arg.string u.ResultID]) ∧
      (∀ d, insertUpdates.statement (updates.map fun u => { u with Date := d }) =
        insertUpdates.statement updates) ∧
      placeholders (insertUpdates.statement updates).query =
        (insertUpdates.statement updates).args.length) ∧
    ((insertRecords db records).1.history = db.history ++ [insertRecords.statement records] ∧
      (insertRecords.statement records).query =
        queryInsertIntoLog ++
          String.intercalate "," (List.replicate records.length "(?, ?, ?, ?, ?, ?)") ∧
      (insertRecords.statement records).args.length = 6 * records.length ∧
      (∀ i r, records[i]? = some r →
        ((insertRecords.statement records).args.drop (6 * i)).take 6 =
          [Arg.date r.Time, Arg.time r.Time, Arg.uint r.UpdateID, Arg.string r.Level,
            Arg.string r.Message, Arg.string r.Payload]) ∧
      (∀ d, insertRecords.statement (records.map fun r => { r with Date := d }) =
        insertRecords.statement records) ∧
      placeholders (insertRecords.statement records).query =
        (insertRecords.statement records).args.length) := by
  have hu := insertUpdates_statement_eq updates
  have hr := insertRecords_statement_eq records
  have hul : ∀ x, (insertUpdates.row x).length = 14 := fun _ => rfl
  have hrl : ∀ x, (insertRecords.row x).length = 6 := fun _ => rfl
  have hpu : placeholders queryInsertIntoUpdates = 0 := by decide
  have hpr : placeholders queryInsertIntoLog = 0 := by decide
  have hvu : placeholders insertUpdates.values = 14 := by decide
  have hvr : placeholders insertRecords.values = 6 := by decide
  refine ⟨⟨?_, hu.1, ?_, ?_, ?_, ?_⟩, ⟨?_, hr.1, ?_, ?_, ?_, ?_⟩⟩
  · simp [insertUpdates, DB.Exec]
  · rw [hu.2, flatMap_length_const _ 14 hul]
  · intro i u hi
    rw [hu.2, flatMap_block _ 14 hul updates i u hi]
    rfl
  · intro d
    have h1 := insertUpdates_statement_eq (updates.map fun u => { u with Date := d })
    have hrow := flatMap_row_updates_Date d updates
    cases hs1 : insertUpdates.statement (updates.map fun u => { u with Date := d }) with
    | mk q1 a1 =>
      cases hs2 : insertUpdates.statement updates with
      | mk q2 a2 =>
        rw [hs1] at h1
        rw [hs2] at hu
        simp only at h1 hu
        rw [h1.1, h1.2, hu.1, hu.2, hrow, List.length_map]
  · rw [hu.1, hu.2, placeholders_append, placeholders_intercalate, hpu, hvu,
      flatMap_length_const _ 14 hul]
    ring
  · simp [insertRecords, DB.Exec]
  · rw [hr.2, flatMap_length_const _ 6 hrl]
  · intro i r hi
    rw [hr.2, flatMap_block _ 6 hrl records i r hi]
    rfl
  · intro d
    have h1 := insertRecords_statement_eq (records.map fun r => { r with Date := d })
    have hrow := flatMap_row_records_Date d records
    cases hs1 : insertRecords.statement (records.map fun r => { r with Date := d }) with
    | mk q1 a1 =>
      cases hs2 : insertRecords.statement records with
      | mk q2 a2 =>
        rw [hs1] at h1
        rw [hs2] at hr
        simp only at h1 hr
        rw [h1.1, h1.2, hr.1, hr.2, hrow, List.length_map]
  · rw [hr.1, hr.2, placeholders_append, placeholders_intercalate, hpr, hvr,
      flatMap_length_const _ 6 hrl]
    ring

/-- Witness for C18: the second block of arguments of a statement for two
updates is the row of the second update. -/
theorem bulk_statement_shape_witness :
    ((insertUpdates.statement [sampleUpdate 1, sampleUpdate 2]).args.drop (14 * 1)).take 14 =
      [Arg.date (sampleUpdate 2).Time, Arg.time (sampleUpdate 2).Time,
        Arg.uint (sampleUpdate 2).ID, Arg.string (sampleUpdate 2).Typ,
        Arg.int64 (sampleUpdate 2).UserID, Arg.int64 (sampleUpdate 2).ChatID,
        Arg.string (sampleUpdate 2).MessageID, Arg.string (sampleUpdate 2).Text,
        Arg.string (sampleUpdate 2).Media, Arg.bool (sampleUpdate 2).IsInline,
        Arg.bool (sampleUpdate 2).IsForwarded, Arg.bool (sampleUpdate 2).IsReply,
        Arg.bool (sampleUpdate 2).WasEdited, Arg.string (sampleUpdate 2).ResultID] :=
  (bulk_statement_shape acceptAll [sampleUpdate 1, sampleUpdate 2] []).1.2.2.2.1 1
    (sampleUpdate 2) rfl

/-! ## Logging -/

theorem log_spec {M : Type} (json : JSON M) (now : Time) (m : Monitor)
    (c : Option tele.Context) (level msg : String) (payload : List M)
    (hroom : m.bus.queue.length < m.bus.cap) :
    ∃ m1, log json now m c level msg payload = some m1 ∧
      m1.bus.queue =
        m.bus.queue ++
          [Value.record
            { Time := now
              UpdateID :=
                match c with
                | some c => toUint c.Update.ID
                | none => 0
              Level := level
              Message := msg
              Payload :=
                match payload with
                | [] => ""
                | p :: _ => (json.Marshal p).getD "" }] ∧
      m1.bus.cap = m.bus.cap ∧ m1.db = m.db ∧ m1.wg = m.wg := by
  have hsend : ∀ (m0 : Monitor) (r : Record), m0.bus = m.bus →
      ∃ m1, (match m0.bus.send (Value.record r) with
          | some bus => some { m0 with bus := bus }
          | none => none) = some m1 ∧
        m1.bus.queue = m.bus.queue ++ [Value.record r] ∧ m1.bus.cap = m.bus.cap ∧
        m1.db = m0.db ∧ m1.wg = m0.wg := by
    intro m0 r hb
    simp only [hb, Chan.send, hroom, if_true]
    exact ⟨_, rfl, rfl, rfl, rfl, rfl⟩
  unfold log
  cases c with
  | none =>
    cases payload with
    | nil =>
      cases hl : m.logger with
      | none => exact hsend _ _ rfl
      | some lines => exact hsend _ _ rfl
    | cons p rest =>
      cases hl : m.logger with
      | none => exact hsend _ _ rfl
      | some lines => exact hsend _ _ rfl
  | some c =>
    cases payload with
    | nil =>
      cases hl : m.logger with
      | none => exact hsend _ _ rfl
      | some lines => exact hsend _ _ rfl
    | cons p rest =>
      cases hl : m.logger with
      | none => exact hsend _ _ rfl
      | some lines => exact hsend _ _ rfl

theorem toUint_of_nonneg (x : Int) (h0 : 0 ≤ x) (h1 : x < 2 ^ 64) : (toUint x : Int) = x := by
  unfold toUint
  rw [Int.emod_eq_of_lt h0 h1]
  exact Int.toNat_of_nonneg h0

/-- C11. Each of `Debug`, `Info`, `Warn`, `Error`, called with room on the
bus, enqueues exactly one record at the end of the queue: its `Level` is the
lowercase tag of the method, its `Message` is `msg`, its `UpdateID` is the
identifier of the update of `c` (converted to `uint`, so the identifier itself
when it is not negative) and 0 for a nil context, and its `Payload` is the
encoding of the first payload when one is given and encodes, and empty when no
payload is given. -/
theorem severity_methods_enqueue {M : Type} (json : JSON M) (now : Time) (m : Monitor)
    (c : Option tele.Context) (msg : String) (payload : List M)
    (hroom : m.bus.queue.length < m.bus.cap) :
    (∃ m1, Debug json now m c msg payload = some m1 ∧
      m1.bus.queue =
        m.bus.queue ++ [Value.record (expectedRecord json now c "debug" msg payload)]) ∧
    (∃ m1, Info json now m c msg payload = some m1 ∧
      m1.bus.queue =
        m.bus.queue ++ [Value.record (expectedRecord json now c "info" msg payload)]) ∧
    (∃ m1, Warn json now m c msg payload = some m1 ∧
      m1.bus.queue =
        m.bus.queue ++ [Value.record (expectedRecord json now c "warn" msg payload)]) ∧
    (∃ m1, Error json now m c msg payload = some m1 ∧
      m1.bus.queue =
        m.bus.queue ++ [Value.record (expectedRecord json now c "error" msg payload)]) ∧
    (∀ level,
      (expectedRecord json now c level msg payload).Level = level ∧
      (expectedRecord json now c level msg payload).Message = msg ∧
      (c = none → (expectedRecord json now c level msg payload).UpdateID = 0) ∧
      (∀ c0, c = some c0 → 0 ≤ c0.Update.ID → c0.Update.ID < 2 ^ 64 →
        ((expectedRecord json now c level msg payload).UpdateID : Int) = c0.Update.ID) ∧
      (payload = [] → (expectedRecord json now c level msg payload).Payload = "") ∧
      (∀ p rest enc, payload = p :: rest → json.Marshal p = some enc →
        (expectedRecord json now c level msg payload).Payload = enc)) := by
  have h : ∀ level, ∃ m1, log json now m c level msg payload = some m1 ∧
      m1.bus.queue =
        m.bus.queue ++ [Value.record (expectedRecord json now c level msg payload)] := by
    intro level
    obtain ⟨m1, h1, h2, -⟩ := log_spec json now m c level msg payload hroom
    exact ⟨m1, h1, h2⟩
  refine ⟨h "debug", h "info", h "warn", h "error", ?_⟩
  intro level
  refine ⟨rfl, rfl, ?_, ?_, ?_, ?_⟩
  · intro hc
    subst hc
    rfl
  · intro c0 hc h0 h1
    subst hc
    exact toUint_of_nonneg c0.Update.ID h0 h1
  · intro hp
    subst hp
    rfl
  · intro p rest enc hp he
    subst hp
    simp [expectedRecord, he]

/-- Witness for C11: `Error` for the update 42 with message "boom" and the
payload with member `x` equal to 1. -/
theorem severity_methods_enqueue_witness :
    (∃ m1, Error sampleJSON t0 emptyMonitor (some event42) "boom" [[("x", 1)]] = some m1 ∧
      m1.bus.queue =
        emptyMonitor.bus.queue ++
          [Value.record (expectedRecord sampleJSON t0 (some event42) "error" "boom" [[("x", 1)]])]) ∧
      expectedRecord sampleJSON t0 (some event42) "error" "boom" [[("x", 1)]] =
        { Time := t0, UpdateID := 42, Level := "error", Message := "boom",
          Payload := "\x7b\"x\":1\x7d" } :=
  ⟨(severity_methods_enqueue sampleJSON t0 emptyMonitor (some event42) "boom" [[("x", 1)]]
      (by decide)).2.2.2.1,
    by decide⟩

/-! ## Construction, flush requests and shutdown -/

/-- A monitor returned by `New` has a nil wait group and nil `flush` and `halt`
channels, and its worker starts with an empty accumulator. -/
theorem New_control_state (driver : Driver) (config : Config) (w : Worker)
    (h : New driver config = NewResult.ok w) :
    w.m.wg = none ∧ w.m.flush = none ∧ w.m.halt = none ∧ w.buffer = [] := by
  unfold New at h
  split at h
  · exact NewResult.noConfusion h
  · split at h
    · exact NewResult.noConfusion h
    · simp only at h
      split_ifs at h
      all_goals
        split at h
        · exact NewResult.noConfusion h
        · cases h
          exact ⟨rfl, rfl, rfl, rfl⟩

theorem Flush_nil_wg (m : Monitor) (h : m.wg = none) : (Flush m).isPanic = true := by
  simp [Flush, h, Call.isPanic]

theorem Close_nil_halt (m : Monitor) (h : m.halt = none) : (Close m).isBlocked = true := by
  simp [Close, h, Call.isBlocked]

theorem select_flush_nil (w : Worker) (h : w.m.flush = none) :
    startBatchWorker.select w Case.flush = Outcome.notReady := by
  simp [startBatchWorker.select, h]

theorem select_halt_nil (w : Worker) (h : w.m.halt = none) :
    startBatchWorker.select w Case.halt = Outcome.notReady := by
  simp [startBatchWorker.select, h]

/-- With a wait group, the worker that takes the `halt` case is left suspended
in the send of its own call of `Flush`: nothing is handed over and the
accumulator is as before. -/
theorem select_halt_stuck (w : Worker) (k : Nat) (n : Int) (hh : w.m.halt = some (k + 1))
    (hw : w.m.wg = some n) :
    startBatchWorker.select w Case.halt =
      Outcome.stuck
        { w with
          m := { w.m with halt := some k, wg := some (n + 1), flush := w.m.flush.map (· + 1) } }
        [] := by
  simp only [startBatchWorker.select, hh, hw]

/-- The state in which the `halt` case leaves the monitor is the one its call of
`Flush` reaches before waiting. -/
theorem select_halt_Flush (w : Worker) (k : Nat) (n : Int) (j : Nat)
    (hh : w.m.halt = some (k + 1)) (hw : w.m.wg = some n) (hf : w.m.flush = some j) :
    Flush { w.m with halt := some k } =
        Call.waiting { w.m with halt := some k, wg := some (n + 1), flush := some (j + 1) } ∧
      startBatchWorker.select w Case.halt =
        Outcome.stuck
          { w with
            m := { w.m with halt := some k, wg := some (n + 1), flush := some (j + 1) } }
          [] := by
  constructor
  · simp [Flush, hw, hf]
  · rw [select_halt_stuck w k n hh hw, hf]
    rfl

/-- C12: the code at an input where the claim fails. `New`, with a reachable
store and the default configuration, returns a monitor whose wait group and
whose `flush` and `halt` channels are nil (the bus has capacity 1000); on it
`Flush` panics on the nil wait group, `Close` is suspended for ever in its send
on the nil channel, and the worker can take neither its `flush` case nor its
`halt` case. -/
theorem New_leaves_control_state_nil :
    ((New reachableDriver {}).worker.map fun w =>
        (w.m.wg, w.m.flush, w.m.halt, w.m.bus.cap)) = some (none, none, none, 1000) ∧
      ((New reachableDriver {}).worker.map fun w => (Flush w.m).isPanic) = some true ∧
      ((New reachableDriver {}).worker.map fun w => (Close w.m).isBlocked) = some true ∧
      ((New reachableDriver {}).worker.map fun w =>
        (startBatchWorker.select w Case.flush).result.isNone) = some true ∧
      ((New reachableDriver {}).worker.map fun w =>
        (startBatchWorker.select w Case.halt).result.isNone) = some true := by
  refine ⟨rfl, rfl, rfl, rfl, rfl⟩

/-- The `halt` case on a monitor whose wait group and channels are set (which
`New` never produces): the worker is left suspended in the send of its own
`Flush`, with no call of `insertBatch`, no statement issued and the record
still in the accumulator. -/
theorem halt_case_self_deadlock :
    ((startBatchWorker.select haltWorker Case.halt).result.map fun r =>
        (r.1.buffer, r.2, r.1.m.db.history, r.1.m.wg, r.1.m.flush, r.1.m.halt)) =
      some ([Value.record sampleRecord], [], [], some 1, some 1, some 0) ∧
      (match startBatchWorker.select haltWorker Case.halt with
        | Outcome.stuck _ _ => true
        | _ => false) = true ∧
      (startBatchWorker.run haltWorker [Event.select Case.halt]).isNone = true ∧
      (Flush { haltWorker.m with halt := some 0 }).isPanic = false := by
  refine ⟨rfl, rfl, rfl, rfl⟩

theorem Close_nil_halt_eq (m : Monitor) (h : m.halt = none) : Close m = Call.blocked m := by
  simp [Close, h]

/-- No event changes the `halt` channel of the monitor. -/
theorem step_halt (w : Worker) (e : Event) (w1 : Worker) (t : List Label)
    (hstep : startBatchWorker.step w e = some (w1, t)) : w1.m.halt = w.m.halt := by
  cases e with
  | select c =>
    cases c with
    | bus =>
      cases hq : w.m.bus.queue with
      | nil => simp [startBatchWorker.step, select_bus_nil w hq] at hstep
      | cons v rest =>
        simp only [startBatchWorker.step, select_bus_cons w v rest hq] at hstep
        split_ifs at hstep with hcap
        · simp only [Option.some.injEq, Prod.mk.injEq] at hstep
          obtain ⟨rfl, rfl⟩ := hstep
          rfl
        · simp only [Option.some.injEq, Prod.mk.injEq] at hstep
          obtain ⟨rfl, rfl⟩ := hstep
          rfl
    | ticker =>
      simp only [startBatchWorker.step, select_ticker, Option.some.injEq, Prod.mk.injEq] at hstep
      obtain ⟨rfl, rfl⟩ := hstep
      rfl
    | flush =>
      cases hf : w.m.flush with
      | none => simp [startBatchWorker.step, startBatchWorker.select, hf] at hstep
      | some j =>
        cases j with
        | zero => simp [startBatchWorker.step, startBatchWorker.select, hf] at hstep
        | succ k =>
          cases hw : w.m.wg with
          | none => simp [startBatchWorker.step, select_flush_succ w k hf, hw] at hstep
          | some n =>
            by_cases hn : n - 1 < 0
            · simp [startBatchWorker.step, select_flush_succ w k hf, hw, hn] at hstep
            · simp only [startBatchWorker.step, select_flush_succ w k hf, hw, hn, if_false,
                Option.some.injEq, Prod.mk.injEq] at hstep
              obtain ⟨rfl, rfl⟩ := hstep
              rfl
    | halt =>
      exfalso
      simp only [startBatchWorker.step] at hstep
      cases hs : startBatchWorker.select w Case.halt with
      | next w2 t2 => exact select_halt_result w w2 t2 hs
      | notReady => simp [hs] at hstep
      | fault w2 t2 => simp [hs] at hstep
      | stuck w2 t2 => simp [hs] at hstep
  | send v =>
    simp only [startBatchWorker.step, Chan.send] at hstep
    split_ifs at hstep with hroom
    simp only [Option.some.injEq, Prod.mk.injEq] at hstep
    obtain ⟨rfl, rfl⟩ := hstep
    rfl
  | flushCall =>
    simp only [startBatchWorker.step] at hstep
    cases hw : w.m.wg with
    | none => simp [hw] at hstep
    | some n =>
      simp only [hw, Option.some.injEq, Prod.mk.injEq] at hstep
      obtain ⟨rfl, rfl⟩ := hstep
      rfl

theorem run_halt (es : List Event) (w : Worker) (wf : Worker) (trace : List Label)
    (hrun : startBatchWorker.run w es = some (wf, trace)) : wf.m.halt = w.m.halt := by
  induction es generalizing w trace with
  | nil =>
    simp only [startBatchWorker.run, Option.some.injEq, Prod.mk.injEq] at hrun
    obtain ⟨rfl, rfl⟩ := hrun
    rfl
  | cons e es ih =>
    rw [run_cons] at hrun
    cases hs : startBatchWorker.step w e with
    | none => simp [hs] at hrun
    | some r =>
      obtain ⟨w1, t1⟩ := r
      cases hr : startBatchWorker.run w1 es with
      | none => simp [hs, hr] at hrun
      | some r2 =>
        obtain ⟨w2, t2⟩ := r2
        simp only [hs, hr, Option.bind, Option.map, Option.some.injEq, Prod.mk.injEq] at hrun
        obtain ⟨rfl, rfl⟩ := hrun
        rw [ih w1 t2 hr, step_halt w e w1 t1 hs]

/-- In every state a monitor returned by `New` reaches, `Close` is suspended for
ever in its send, leaving the monitor as it is, and the worker cannot take its
`halt` case. -/
theorem New_halt_never_ready (driver : Driver) (config : Config) (w : Worker)
    (es : List Event) (wf : Worker) (trace : List Label)
    (hnew : New driver config = NewResult.ok w)
    (hrun : startBatchWorker.run w es = some (wf, trace)) :
    Close wf.m = Call.blocked wf.m ∧
      startBatchWorker.select wf Case.halt = Outcome.notReady := by
  have hh : wf.m.halt = none := by
    rw [run_halt es w wf trace hrun]
    exact (New_control_state driver config w hnew).2.2.1
  exact ⟨Close_nil_halt_eq wf.m hh, select_halt_nil wf hh⟩

/-- C13: the code at an input where the claim fails. On the monitor that `New`
returns for a reachable store and the default configuration, `Close` is
suspended for ever in its send on the nil `halt` channel and the worker cannot
take its `halt` case: no final flush is made and the worker does not stop. A
record sent afterwards is still drained and still handed to `insertBatch` by
the next timer step, which issues the log statement after the two statements
of `createTables`. -/
theorem Close_leaves_worker_running :
    ((New reachableDriver {}).worker.map fun w => (Close w.m).isBlocked) = some true ∧
      ((New reachableDriver {}).worker.map fun w =>
        (startBatchWorker.select w Case.halt).result.isNone) = some true ∧
      ((New reachableDriver {}).worker.bind fun w =>
        (startBatchWorker.run w
          [Event.send (Value.record sampleRecord), Event.select Case.bus,
            Event.select Case.ticker]).map fun r =>
          (r.2, r.1.buffer, r.1.m.db.history, r.1.m.halt)) =
        some
          ([Label.received (Value.record sampleRecord),
              Label.flushed Trigger.timer [Value.record sampleRecord]],
            [],
            [{ query := queryCreateTableUpdates, args := [] },
              { query := queryCreateTableLogs, args := [] },
              insertRecords.statement [sampleRecord]],
            none) := by
  refine ⟨rfl, rfl, rfl⟩

/-! ## telegraph -/

/-- A body that decodes to an empty list of uploads makes `Upload` index an
empty slice. -/
theorem Upload_empty_uploads (json : telegraph.Decoder) (host : telegraph.Host)
    (file data : String) (hpost : host.post file = Except.ok data)
    (hdec : json.uploads data = Except.ok []) :
    telegraph.Upload json host (Except.ok file) =
      telegraph.Result.panic "index out of range [0] with length 0" := by
  simp [telegraph.Upload, hpost, hdec]

/-- C20: the code at an input where the claim fails. When the host answers
with the empty array, `Upload` neither returns a URL nor an error: it indexes
the empty slice of uploads. -/
theorem Upload_panics_on_empty_array :
    sampleDecoder.uploads "[]" = Except.ok [] ∧
      telegraph.Upload sampleDecoder emptyArrayHost (Except.ok "file") =
        telegraph.Result.panic "index out of range [0] with length 0" ∧
      (∀ url, telegraph.Upload sampleDecoder emptyArrayHost (Except.ok "file") ≠
        telegraph.Result.ok url) ∧
      (∀ err, telegraph.Upload sampleDecoder emptyArrayHost (Except.ok "file") ≠
        telegraph.Result.error err) := by
  have h : telegraph.Upload sampleDecoder emptyArrayHost (Except.ok "file") =
      telegraph.Result.panic "index out of range [0] with length 0" :=
    Upload_empty_uploads sampleDecoder emptyArrayHost "file" "[]" rfl rfl
  refine ⟨rfl, h, ?_, ?_⟩
  · intro url
    rw [h]
    exact fun hc => telegraph.Result.noConfusion hc
  · intro err
    rw [h]
    exact fun hc => telegraph.Result.noConfusion hc

end monitor
